import Mathlib

/-!
Verification of the PaySlipsAgent pipeline: a shallow embedding, in Lean 4, of
the pure computational core of the repository's Python sources
(payslip_parser.py, vision_extractor.py, pdf_processor.py, email_sender.py,
app.py), together with theorems settling the frozen specification claims.

Modelling conventions:
- Python `str` is Lean String; Python `int` is Lean Int (arbitrary precision in
  both languages); Python `None`-able values are Option.
- Python dictionaries are association lists with distinct keys; dictionary
  iteration order is list order (Python dicts preserve insertion order).
- Fallible Python code (code that may raise) returns Except Unit.
- External collaborators (the SQLite layer, the SMTP transport, the vision
  model, the regex engine of module re, the pikepdf page store and the
  filesystem) are modelled as oracle parameters or as explicit event lists,
  so that claims about "the transport is not invoked" become statements about
  the produced event list.
-/

namespace PaySlips

/-! ### Python primitives -/

/-- Python truthiness of an optional string: None and "" are falsy. -/
def pyTruthyStr : Option String → Bool
  | some s => s != ""
  | none => false

/-- Python truthiness of an optional int: None and 0 are falsy. -/
def pyTruthyInt : Option Int → Bool
  | some n => n != 0
  | none => false

/-- Python `a or dflt` for an optional string `a`: the string itself when
truthy, otherwise the default. -/
def pyOrStr (v : Option String) (dflt : String) : String :=
  match v with
  | some s => if s != "" then s else dflt
  | none => dflt

/-- Python `str.isdigit()` restricted to ASCII digits (payslip inputs are
ASCII digit strings; Python additionally accepts other Unicode digit
codepoints, which never occur here). Empty strings are not digit strings. -/
def pyIsdigit (s : String) : Bool :=
  s != "" && s.data.all Char.isDigit

/-- Python's whitespace class for str.strip(). -/
def isPySpace (c : Char) : Bool :=
  c == ' ' || c == '\t' || c == '\n' || c == '\r' ||
    c == Char.ofNat 11 || c == Char.ofNat 12

/-- Python `s.strip()`. -/
def pyStrip (s : String) : String :=
  String.mk (((s.data.dropWhile isPySpace).reverse.dropWhile isPySpace).reverse)

/-- `t.startswith(p)`. -/
def strStartsWith (t p : String) : Bool :=
  p.data.isPrefixOf t.data

/-- `t.endswith(p)`. -/
def strEndsWith (t p : String) : Bool :=
  p.data.isSuffixOf t.data

/-- Split on a nonempty separator (worker, structural fuel recursion). -/
def splitOnGo (sep : List Char) : Nat → List Char → List Char → List (List Char)
  | 0, acc, l => [acc.reverse ++ l]
  | _ + 1, acc, [] => [acc.reverse]
  | fuel + 1, acc, c :: rest =>
    if sep.isPrefixOf (c :: rest) then
      acc.reverse :: splitOnGo sep fuel [] ((c :: rest).drop sep.length)
    else splitOnGo sep fuel (c :: acc) rest

/-- `t.split(sep)` for a nonempty separator. -/
def strSplitOn (t sep : String) : List String :=
  (splitOnGo sep.data (t.data.length + 1) [] t.data).map String.mk

/-- Python `int(s)` on a digit string: the decimal value. Only applied under
an isdigit-style guard (in the source, a bare `int(s)` on a non-digit string
raises; theorems carry the corresponding digit-string hypotheses). -/
def strToInt (s : String) : Int :=
  (s.data.foldl (fun n c => n * 10 + (c.toNat - 48)) 0 : Nat)

/-! ### payslip_parser.py -/

/-- HEBREW_MONTHS: the 1-indexed Hebrew month-name dictionary. -/
def HEBREW_MONTHS : List (Int × String) :=
  [(1, "ינואר"), (2, "פברואר"), (3, "מרץ"), (4, "אפריל"), (5, "מאי"),
   (6, "יוני"), (7, "יולי"), (8, "אוגוסט"), (9, "ספטמבר"), (10, "אוקטובר"),
   (11, "נובמבר"), (12, "דצמבר")]

/-- `HEBREW_MONTHS.get(m, dflt)`. -/
def hebrewMonthsGet (m : Int) (dflt : String) : String :=
  match HEBREW_MONTHS.find? (fun p => p.1 == m) with
  | some p => p.2
  | none => dflt

/-- The reverse dictionary `hebrew_to_num` built in _parse_month_year. -/
def hebrewToNum (name : String) : Option Int :=
  (HEBREW_MONTHS.find? (fun p => p.2 == name)).map (fun p => p.1)

/-- The three families of PERIOD_PATTERNS, in source order: labeled numeric
month/year, labeled Hebrew month name + year, bare month/year anywhere. -/
inductive PeriodPattern where
  | numericLabeled
  | hebrewLabeled
  | bareNumeric
deriving DecidableEq, Repr

/-- PERIOD_PATTERNS as the ordered list the source iterates over. -/
def PERIOD_PATTERNS : List PeriodPattern :=
  [.numericLabeled, .hebrewLabeled, .bareNumeric]

/-- The regex engine of module re, abstracted: `re.search(pattern, text)`
yields the two captured groups of the first match, or none. -/
def ReSearch : Type := PeriodPattern → String → Option (String × String)

/-- One iteration step of the _parse_month_year pattern loop: the outcome of
trying a single pattern (some accepted (month, year), or none to fall
through to the next pattern). -/
def tryPeriodPattern (search : ReSearch) (text : String) (p : PeriodPattern) :
    Option (Int × Int) :=
  match search p text with
  | none => none
  | some (g1raw, g2raw) =>
    let g1 := pyStrip g1raw
    let g2 := pyStrip g2raw
    if pyIsdigit g1 then
      let month := strToInt g1
      let year := strToInt g2
      if 1 ≤ month ∧ month ≤ 12 ∧ 1900 ≤ year ∧ year ≤ 2100 then
        some (month, year)
      else none
    else
      match hebrewToNum g1 with
      | some monthNum =>
        if monthNum != 0 && pyIsdigit g2 then
          let year := strToInt g2
          if 1900 ≤ year ∧ year ≤ 2100 then some (monthNum, year) else none
        else none
      | none => none

/-- The pattern loop of _parse_month_year over a list of patterns. -/
def periodLoop (search : ReSearch) (text : String) :
    List PeriodPattern → Option Int × Option Int
  | [] => (none, none)
  | p :: rest =>
    match tryPeriodPattern search text p with
    | some (m, y) => (some m, some y)
    | none => periodLoop search text rest

/-- _parse_month_year: try each PERIOD_PATTERNS entry in order; accept a
numeric candidate only when month ∈ [1,12] and year ∈ [1900,2100], a Hebrew
month-name candidate only when the name is known and year ∈ [1900,2100]. -/
def parseMonthYear (search : ReSearch) (text : String) : Option Int × Option Int :=
  periodLoop search text PERIOD_PATTERNS

/-- Oracle well-formedness tying the abstract regex engine back to the real
patterns: whenever a match's first captured group is a digit string, its
second captured group is one as well (true of the source patterns: the first
group is digits only for the two numeric families, whose second group is
`\d` repeated four times). -/
def searchDigitGroups (search : ReSearch) : Prop :=
  ∀ p text g1 g2, search p text = some (g1, g2) →
    pyIsdigit (pyStrip g1) = true → pyIsdigit (pyStrip g2) = true

/-- _format_filename: `name - month(HEB) year` with graceful degradation,
gated on Python truthiness of month and year. -/
def formatFilename (name : String) (month year : Option Int) : String :=
  if pyTruthyInt month && pyTruthyInt year then
    let m := month.getD 0
    let hebrewMonth := hebrewMonthsGet m (toString m)
    name ++ " - " ++ hebrewMonth ++ " " ++ toString (year.getD 0)
  else if pyTruthyInt year then
    name ++ " - " ++ toString (year.getD 0)
  else
    name

/-- EmployeePayslip: parsed data for a single employee payslip page. -/
structure EmployeePayslip where
  page_number : Int
  name : Option String := none
  employee_id : Option String := none
  email : Option String := none
  month : Option Int := none
  year : Option Int := none
  raw_text : String := ""
deriving DecidableEq, Repr

/-- The display name used by the filename property:
`self.name or "employee_page_N"`. -/
def EmployeePayslip.displayName (ps : EmployeePayslip) : String :=
  pyOrStr ps.name ("employee_page_" ++ toString (ps.page_number + 1))

/-- EmployeePayslip.filename property. -/
def EmployeePayslip.filename (ps : EmployeePayslip) : String :=
  formatFilename ps.displayName ps.month ps.year

/-- EmployeePayslip.is_valid property: name and employee_id both truthy. -/
def EmployeePayslip.isValid (ps : EmployeePayslip) : Bool :=
  pyTruthyStr ps.name && pyTruthyStr ps.employee_id

/-- String containment (Python `needle in hay`), as list-infix of the
character data. -/
def strContains (hay needle : String) : Prop :=
  needle.data <:+: hay.data

instance (hay needle : String) : Decidable (strContains hay needle) :=
  List.decidableInfix needle.data hay.data

/-! ### Python/JSON values

A Python value as produced by `json.loads` and stored in the per-page result
dictionaries of vision_extractor.py. -/

inductive PyVal where
  | vNone : PyVal
  | vBool : Bool → PyVal
  | vInt : Int → PyVal
  | vStr : String → PyVal
  | vList : List PyVal → PyVal
  | vDict : List (String × PyVal) → PyVal

/-- Python truthiness of a value: None, False, 0, "" and empty containers are
falsy. -/
def PyVal.truthy : PyVal → Bool
  | .vNone => false
  | .vBool b => b
  | .vInt n => n != 0
  | .vStr s => s != ""
  | .vList l => !l.isEmpty
  | .vDict kvs => !kvs.isEmpty

/-- A per-page result dictionary (insertion-ordered, distinct keys). -/
abbrev Entry := List (String × PyVal)

/-- A known-mistake table for one field: wrong value → right value. -/
abbrev FieldMap := List (String × String)

/-- The corrections argument: field → (wrong value → right value). -/
abbrev Corrections := List (String × FieldMap)

/-- `entry.get(field)`: the stored value, or None when the key is absent. -/
def entryGet (e : Entry) (k : String) : PyVal :=
  match e.find? (fun p => p.1 == k) with
  | some p => p.2
  | none => .vNone

/-- `entry[field] = v` on a dict whose key is present (the only situation the
source reaches an assignment in): replace the stored value in place. -/
def entrySet (e : Entry) (k : String) (v : PyVal) : Entry :=
  e.map (fun p => if p.1 == k then (p.1, v) else p)

/-- Lookup of a (string) value in a field's wrong→right dictionary. -/
def fmLookup (m : FieldMap) (s : String) : Option String :=
  (m.find? (fun p => p.1 == s)).map (fun p => p.2)

/-- One inner-loop iteration of apply_corrections: `val = entry.get(field);
if val and val in mapping: entry[field] = mapping[val]`. Non-string hashable
values are never equal to the (string) table keys; an unhashable (list/dict)
truthy value makes the membership test raise TypeError. -/
def applyFieldCorrection (e : Entry) (field : String) (mapping : FieldMap) :
    Except Unit Entry :=
  let val := entryGet e field
  if val.truthy then
    match val with
    | .vStr s =>
      match fmLookup mapping s with
      | some r => .ok (entrySet e field (.vStr r))
      | none => .ok e
    | .vList _ => .error ()
    | .vDict _ => .error ()
    | _ => .ok e
  else .ok e

/-- The per-entry loop of apply_corrections over all (field, mapping) items
of the corrections dict. -/
def applyEntryCorrections (e : Entry) (cs : Corrections) : Except Unit Entry :=
  cs.foldlM (fun acc fc => applyFieldCorrection acc fc.1 fc.2) e

/-- apply_corrections: `if not corrections: return extracted`, otherwise
correct every entry (stopping at the first raised error, as the in-place
Python loop would). -/
def apply_corrections (extracted : List Entry) (cs : Corrections) :
    Except Unit (List Entry) :=
  if cs.isEmpty then .ok extracted
  else extracted.mapM (fun e => applyEntryCorrections e cs)

/-! ### vision_extractor.py: response parsing and per-page extraction -/

/-- The opening-brace character, written by code point. -/
def lbrace : Char := Char.ofNat 123

/-- The closing-brace character, written by code point. -/
def rbrace : Char := Char.ofNat 125

/-- JSON insignificant whitespace. -/
def isJsonWs (c : Char) : Bool :=
  c == ' ' || c == '\t' || c == '\n' || c == '\r'

/-- Skip insignificant whitespace. -/
def skipWs (l : List Char) : List Char :=
  l.dropWhile isJsonWs

/-- Hex digit value, if any. -/
def hexVal (c : Char) : Option Nat :=
  if '0' ≤ c ∧ c ≤ '9' then some (c.toNat - 48)
  else if 'a' ≤ c ∧ c ≤ 'f' then some (c.toNat - 87)
  else if 'A' ≤ c ∧ c ≤ 'F' then some (c.toNat - 70)
  else none

/-- Parse the body of a JSON string literal (after the opening quote),
returning the decoded characters and the input after the closing quote.
Surrogate-pair escapes are not modelled (Char.ofNat maps invalid code points
to NUL). -/
def parseJStringBody : Nat → List Char → Option (List Char × List Char)
  | 0, _ => none
  | _, [] => none
  | fuel + 1, c :: rest =>
    if c == '"' then some ([], rest)
    else if c == '\\' then
      match rest with
      | [] => none
      | e :: rest2 =>
        let decoded : Option (Char × List Char) :=
          if e == '"' then some ('"', rest2)
          else if e == '\\' then some ('\\', rest2)
          else if e == '/' then some ('/', rest2)
          else if e == 'b' then some (Char.ofNat 8, rest2)
          else if e == 'f' then some (Char.ofNat 12, rest2)
          else if e == 'n' then some ('\n', rest2)
          else if e == 'r' then some ('\r', rest2)
          else if e == 't' then some ('\t', rest2)
          else if e == 'u' then
            match rest2 with
            | h1 :: h2 :: h3 :: h4 :: rest3 =>
              match hexVal h1, hexVal h2, hexVal h3, hexVal h4 with
              | some a, some b, some c3, some d =>
                some (Char.ofNat (((a * 16 + b) * 16 + c3) * 16 + d), rest3)
              | _, _, _, _ => none
            | _ => none
          else none
        match decoded with
        | some (ch, rest3) =>
          match parseJStringBody fuel rest3 with
          | some (tail, rem) => some (ch :: tail, rem)
          | none => none
        | none => none
    else
      match parseJStringBody fuel rest with
      | some (tail, rem) => some (c :: tail, rem)
      | none => none

/-- Parse an unsigned decimal integer literal. -/
def parseDigits (l : List Char) : Option (Nat × List Char) :=
  let digits := l.takeWhile Char.isDigit
  if digits.isEmpty then none
  else some (digits.foldl (fun n c => n * 10 + (c.toNat - 48)) 0, l.drop digits.length)

mutual

/-- Fuel-based parser for a JSON value. Numeric literals are modelled as
integers (a fractional or exponent part is treated as a parse failure; the
payslip fields are integers). -/
def parseJVal : Nat → List Char → Option (PyVal × List Char)
  | 0, _ => none
  | fuel + 1, l =>
    match skipWs l with
    | [] => none
    | c :: rest =>
      if c == '"' then
        match parseJStringBody (rest.length + 1) rest with
        | some (chars, rem) => some (.vStr (String.mk chars), rem)
        | none => none
      else if c == lbrace then
        match skipWs rest with
        | d :: rest2 =>
          if d == rbrace then some (.vDict [], rest2)
          else
            match parseJMembers fuel (d :: rest2) with
            | some (kvs, rem) => some (.vDict kvs, rem)
            | none => none
        | [] => none
      else if c == '[' then
        match skipWs rest with
        | d :: rest2 =>
          if d == ']' then some (.vList [], rest2)
          else
            match parseJElems fuel (d :: rest2) with
            | some (xs, rem) => some (.vList xs, rem)
            | none => none
        | [] => none
      else if c == 'n' then
        match rest with
        | 'u' :: 'l' :: 'l' :: rem => some (.vNone, rem)
        | _ => none
      else if c == 't' then
        match rest with
        | 'r' :: 'u' :: 'e' :: rem => some (.vBool true, rem)
        | _ => none
      else if c == 'f' then
        match rest with
        | 'a' :: 'l' :: 's' :: 'e' :: rem => some (.vBool false, rem)
        | _ => none
      else if c == '-' then
        match parseDigits rest with
        | some (n, rem) =>
          match rem with
          | d :: _ => if d == '.' || d == 'e' || d == 'E' then none
                      else some (.vInt (-(n : Int)), rem)
          | [] => some (.vInt (-(n : Int)), [])
        | none => none
      else if c.isDigit then
        match parseDigits (c :: rest) with
        | some (n, rem) =>
          match rem with
          | d :: _ => if d == '.' || d == 'e' || d == 'E' then none
                      else some (.vInt (n : Int), rem)
          | [] => some (.vInt (n : Int), [])
        | none => none
      else none

/-- Parse the members of a JSON object after its first non-whitespace,
non-brace character. -/
def parseJMembers : Nat → List Char → Option (List (String × PyVal) × List Char)
  | 0, _ => none
  | fuel + 1, l =>
    match skipWs l with
    | c :: rest =>
      if c == '"' then
        match parseJStringBody (rest.length + 1) rest with
        | some (keyChars, rem1) =>
          match skipWs rem1 with
          | ':' :: rem2 =>
            match parseJVal fuel rem2 with
            | some (v, rem3) =>
              match skipWs rem3 with
              | ',' :: rem4 =>
                match parseJMembers fuel rem4 with
                | some (kvs, rem5) => some ((String.mk keyChars, v) :: kvs, rem5)
                | none => none
              | d :: rem4 =>
                if d == rbrace then some ([(String.mk keyChars, v)], rem4)
                else none
              | [] => none
            | none => none
          | _ => none
        | none => none
      else none
    | [] => none

/-- Parse the elements of a JSON array after its first non-whitespace,
non-bracket character. -/
def parseJElems : Nat → List Char → Option (List PyVal × List Char)
  | 0, _ => none
  | fuel + 1, l =>
    match parseJVal fuel l with
    | some (v, rem) =>
      match skipWs rem with
      | ',' :: rem2 =>
        match parseJElems fuel rem2 with
        | some (xs, rem3) => some (v :: xs, rem3)
        | none => none
      | ']' :: rem2 => some ([v], rem2)
      | _ => none
    | none => none

end

/-- `json.loads`: parse a complete JSON document, rejecting trailing input.
A failure models the ValueError the source catches. -/
def jsonLoads (s : String) : Except Unit PyVal :=
  match parseJVal (2 * s.data.length + 4) s.data with
  | some (v, rest) => if (skipWs rest).isEmpty then .ok v else .error ()
  | none => .error ()

/-- `t.split(sep, 1)[1]`: everything after the first occurrence of `sep`, or
an IndexError (none) when `sep` does not occur. -/
def pySplitOnceDrop (t sep : String) : Option String :=
  match strSplitOn t sep with
  | [] => none
  | [_] => none
  | _ :: rest => some (String.intercalate sep rest)

/-- `t.rsplit(sep, 1)[0]`: everything before the last occurrence of `sep`,
or all of `t` when `sep` does not occur. -/
def pyRsplitFirst (t sep : String) : String :=
  match strSplitOn t sep with
  | [] => t
  | [_] => t
  | parts => String.intercalate sep parts.dropLast

/-- The markdown-fence unwrapping of extract_with_vision: if the (stripped)
response starts with a code fence, drop the first line and everything from
the last fence on, then strip; dropping the first line of a one-line
response raises IndexError. -/
def unwrapFences (t : String) : Except Unit String :=
  if strStartsWith t "```" then
    match pySplitOnceDrop t "\n" with
    | some rest => .ok (pyStrip (pyRsplitFirst rest "```"))
    | none => .error ()
  else .ok t

/-- `data.get(k)`: None-defaulted lookup on a dict; any other receiver lacks
the attribute and raises. -/
def pyGet (data : PyVal) (k : String) : Except Unit PyVal :=
  match data with
  | .vDict kvs => .ok (((kvs.find? (fun p => p.1 == k)).map (fun p => p.2)).getD .vNone)
  | _ => .error ()

/-- `int(x)` on a Python value: ints pass through, booleans coerce, strings
parse as optionally signed decimal after stripping whitespace; anything else
raises. -/
def pyIntOf : PyVal → Except Unit Int
  | .vInt n => .ok n
  | .vBool b => .ok (if b then 1 else 0)
  | .vStr s =>
    let t := pyStrip s
    if pyIsdigit t then .ok (strToInt t)
    else if strStartsWith t "-" && pyIsdigit (t.drop 1) then .ok (-(strToInt (t.drop 1)))
    else if strStartsWith t "+" && pyIsdigit (t.drop 1) then .ok (strToInt (t.drop 1))
    else .error ()
  | _ => .error ()

/-- `str(x)` on a Python value (container reprs are abbreviated; the source
only applies str to the employee_id field, a scalar in well-formed model
output). -/
def pyStrOf : PyVal → String
  | .vStr s => s
  | .vInt n => toString n
  | .vBool b => if b then "True" else "False"
  | .vNone => "None"
  | .vList _ => "[...]"
  | .vDict _ => "(dict)"

/-- The all-null record appended for a page whose model call failed. -/
def nullEntry (pageNum : Int) (rawText : String) : Entry :=
  [("page_number", .vInt pageNum), ("name", .vNone), ("employee_id", .vNone),
   ("email", .vNone), ("month", .vNone), ("year", .vNone),
   ("raw_text", .vStr rawText)]

/-- Build the per-page result dictionary from parsed response data, in the
source's field order; the employee_id is coerced with str and month/year
with int, any of which may raise. -/
def buildEntry (pageNum : Int) (rawText : String) (data : PyVal) :
    Except Unit Entry := do
  let namev ← pyGet data "name"
  let eidv ← pyGet data "employee_id"
  let eid : PyVal := if eidv.truthy then .vStr (pyStrOf eidv) else .vNone
  let emailv ← pyGet data "email"
  let monthv ← pyGet data "month"
  let month : PyVal ←
    if monthv.truthy then do
      let n ← pyIntOf monthv
      pure (PyVal.vInt n)
    else pure PyVal.vNone
  let yearv ← pyGet data "year"
  let year : PyVal ←
    if yearv.truthy then do
      let n ← pyIntOf yearv
      pure (PyVal.vInt n)
    else pure PyVal.vNone
  pure [("page_number", .vInt pageNum), ("name", namev), ("employee_id", eid),
        ("email", emailv), ("month", month), ("year", year),
        ("raw_text", .vStr rawText)]

/-- One page of the source document as the vision strategy sees it: its
extracted text and the outcome of the model call for it (the response text,
or a raised transport error). -/
structure VisionPage where
  raw_text : String
  call : Except Unit String

/-- The body of the per-page try block: strip, unwrap fences, parse JSON and
build the result dictionary; any failure is the caught exception. -/
def visionPageAttempt (pageNum : Int) (p : VisionPage) : Except Unit Entry := do
  let t ← p.call
  let t2 ← unwrapFences (pyStrip t)
  let data ← jsonLoads t2
  buildEntry pageNum p.raw_text data

/-- One loop iteration of extract_with_vision: the try/except yielding either
the built record or the all-null record for this page. -/
def processVisionPage (pageNum : Int) (p : VisionPage) : Entry :=
  match visionPageAttempt pageNum p with
  | .ok e => e
  | .error _ => nullEntry pageNum p.raw_text

/-- extract_with_vision: process every page in order, then apply the known
corrections to the collected results. -/
def extract_with_vision (pages : List VisionPage) (corrections : Corrections) :
    Except Unit (List Entry) :=
  apply_corrections (pages.enum.map (fun ip => processVisionPage (ip.1 : Int) ip.2))
    corrections

/-! ### hashlib.sha256 (FIPS 180-4, executable) -/

/-- Truncate to a 32-bit word. -/
def w32 (x : Nat) : Nat := x % 4294967296

/-- 32-bit right rotation. -/
def rotr32 (x n : Nat) : Nat := w32 ((x >>> n) ||| (x <<< (32 - n)))

/-- Big sigma 0. -/
def bsig0 (x : Nat) : Nat := (rotr32 x 2) ^^^ (rotr32 x 13) ^^^ (rotr32 x 22)

/-- Big sigma 1. -/
def bsig1 (x : Nat) : Nat := (rotr32 x 6) ^^^ (rotr32 x 11) ^^^ (rotr32 x 25)

/-- Small sigma 0. -/
def ssig0 (x : Nat) : Nat := (rotr32 x 7) ^^^ (rotr32 x 18) ^^^ (x >>> 3)

/-- Small sigma 1. -/
def ssig1 (x : Nat) : Nat := (rotr32 x 17) ^^^ (rotr32 x 19) ^^^ (x >>> 10)

/-- The SHA-256 round constants. -/
def SHA256_K : List Nat :=
  [1116352408, 1899447441, 3049323471, 3921009573, 961987163,
   1508970993, 2453635748, 2870763221, 3624381080, 310598401,
   607225278, 1426881987, 1925078388, 2162078206, 2614888103,
   3248222580, 3835390401, 4022224774, 264347078, 604807628,
   770255983, 1249150122, 1555081692, 1996064986, 2554220882,
   2821834349, 2952996808, 3210313671, 3336571891, 3584528711,
   113926993, 338241895, 666307205, 773529912, 1294757372,
   1396182291, 1695183700, 1986661051, 2177026350, 2456956037,
   2730485921, 2820302411, 3259730800, 3345764771, 3516065817,
   3600352804, 4094571909, 275423344, 430227734, 506948616,
   659060556, 883997877, 958139571, 1322822218, 1537002063,
   1747873779, 1955562222, 2024104815, 2227730452, 2361852424,
   2428436474, 2756734187, 3204031479, 3329325298]

/-- The SHA-256 initial hash value. -/
def SHA256_H0 : List Nat :=
  [1779033703, 3144134277, 1013904242, 2773480762,
   1359893119, 2600822924, 528734635, 1541459225]

/-- 64-bit big-endian byte encoding. -/
def be64 (n : Nat) : List Nat :=
  [56, 48, 40, 32, 24, 16, 8, 0].map (fun s => (n >>> s) % 256)

/-- Merkle-Damgard padding: append 0x80, zeros to 56 mod 64, then the bit
length as 8 big-endian bytes. -/
def sha256Pad (msg : List Nat) : List Nat :=
  let padZeros := (64 - ((msg.length + 9) % 64)) % 64
  msg ++ 0x80 :: (List.replicate padZeros 0 ++ be64 (8 * msg.length))

/-- Split a byte list into 64-byte blocks (structural fuel recursion; the
fuel is the list length, always sufficient since every step consumes 64
bytes of a nonempty list). -/
def toBlocksGo : Nat → List Nat → List (List Nat)
  | 0, _ => []
  | _, [] => []
  | fuel + 1, c :: rest => (c :: rest).take 64 :: toBlocksGo fuel ((c :: rest).drop 64)

/-- Split the padded message into 64-byte blocks. -/
def toBlocks (l : List Nat) : List (List Nat) :=
  toBlocksGo l.length l

/-- Group a block's bytes into big-endian 32-bit words. -/
def wordsOfBlock : List Nat → List Nat
  | b0 :: b1 :: b2 :: b3 :: rest =>
    (((b0 * 256 + b1) * 256 + b2) * 256 + b3) :: wordsOfBlock rest
  | _ => []

/-- Extend the message schedule by one word. -/
def schedStep (w : List Nat) : List Nat :=
  let i := w.length
  w ++ [w32 (w.getD (i - 16) 0 + ssig0 (w.getD (i - 15) 0) +
             w.getD (i - 7) 0 + ssig1 (w.getD (i - 2) 0))]

/-- The 64-word message schedule from a block's 16 words. -/
def schedule (w16 : List Nat) : List Nat :=
  (List.range 48).foldl (fun w _ => schedStep w) w16

/-- One SHA-256 compression round on the eight-word working state. -/
def compressRound (st : List Nat) (wk : Nat × Nat) : List Nat :=
  let a := st.getD 0 0
  let b := st.getD 1 0
  let c := st.getD 2 0
  let d := st.getD 3 0
  let e := st.getD 4 0
  let f := st.getD 5 0
  let g := st.getD 6 0
  let h := st.getD 7 0
  let ch := (e &&& f) ^^^ ((e ^^^ 4294967295) &&& g)
  let t1 := w32 (h + bsig1 e + ch + wk.2 + wk.1)
  let maj := (a &&& b) ^^^ (a &&& c) ^^^ (b &&& c)
  let t2 := w32 (bsig0 a + maj)
  [w32 (t1 + t2), a, b, c, w32 (d + t1), e, f, g]

/-- Compress one 64-byte block into the running hash. -/
def compressBlock (H : List Nat) (block : List Nat) : List Nat :=
  let ws := schedule (wordsOfBlock block)
  let st := (ws.zip SHA256_K).foldl compressRound H
  (H.zip st).map (fun p => w32 (p.1 + p.2))

/-- SHA-256 of a byte list, as eight 32-bit hash words. -/
def sha256Words (msg : List Nat) : List Nat :=
  (toBlocks (sha256Pad msg)).foldl compressBlock SHA256_H0

/-- A lowercase hexadecimal digit. -/
def hexDigitChar (n : Nat) : Char :=
  if n < 10 then Char.ofNat (48 + n) else Char.ofNat (87 + n)

/-- The eight hex characters of one 32-bit word. -/
def wordHexChars (w : Nat) : List Char :=
  [28, 24, 20, 16, 12, 8, 4, 0].map (fun s => hexDigitChar ((w >>> s) % 16))

/-- The 64 hex characters of a SHA-256 digest (hashlib hexdigest). -/
def sha256HexChars (msg : List Nat) : List Char :=
  (sha256Words msg).foldr (fun w acc => wordHexChars w ++ acc) []

/-- UTF-8 encoding of one character. -/
def utf8Char (c : Char) : List Nat :=
  let n := c.toNat
  if n < 128 then [n]
  else if n < 2048 then [192 ||| (n >>> 6), 128 ||| (n &&& 63)]
  else if n < 65536 then
    [224 ||| (n >>> 12), 128 ||| ((n >>> 6) &&& 63), 128 ||| (n &&& 63)]
  else
    [240 ||| (n >>> 18), 128 ||| ((n >>> 12) &&& 63),
     128 ||| ((n >>> 6) &&& 63), 128 ||| (n &&& 63)]

/-- `s.encode()`: the UTF-8 bytes of a string. -/
def utf8Bytes (s : String) : List Nat :=
  s.data.foldr (fun c acc => utf8Char c ++ acc) []

/-- `hashlib.sha256(s.encode()).hexdigest()`. -/
def sha256Hexdigest (s : String) : String :=
  String.mk (sha256HexChars (utf8Bytes s))

/-! ### pdf_processor.py -/

/-- The pikepdf permission flags passed to every save. -/
structure PdfPermissions where
  print_lowres : Bool
  print_highres : Bool
  accessibility : Bool
  modify_annotation : Bool
  modify_assembly : Bool
  modify_form : Bool
  modify_other : Bool
  can_extract : Bool
deriving DecidableEq, Repr

/-- PRINT_ONLY_PERMISSIONS: only printing is allowed. -/
def PRINT_ONLY_PERMISSIONS : PdfPermissions :=
  { print_lowres := true, print_highres := true, accessibility := false,
    modify_annotation := false, modify_assembly := false, modify_form := false,
    modify_other := false, can_extract := false }

/-- _generate_owner_password: the truncated hex digest of the seeded hash. -/
def generate_owner_password (seed : String) : String :=
  String.mk ((sha256HexChars
    (utf8Bytes ("payslip-owner-" ++ seed ++ "-secret"))).take 32)

/-- The user (opening) password passed to dest.save:
`payslip.employee_id or ""`. -/
def userPassword (ps : EmployeePayslip) : String :=
  pyOrStr ps.employee_id ""

/-- The owner-password seed: `payslip.employee_id or "owner"`. -/
def ownerSeed (ps : EmployeePayslip) : String :=
  pyOrStr ps.employee_id "owner"

/-- _sanitize_filename's per-character policy: keep ASCII alphanumerics,
space, hyphen, underscore, period, and the Hebrew block U+0590..U+05FF
(Python's Unicode isalnum outside these ranges is approximated by the ASCII
check; payslip names are Hebrew/ASCII). -/
def keepChar (c : Char) : Bool :=
  c.isAlphanum || c == ' ' || c == '-' || c == '_' || c == '.' ||
    (1424 ≤ c.toNat && c.toNat ≤ 1535)

/-- _sanitize_filename: replace every other character with an underscore,
then strip. -/
def sanitizeFilename (name : String) : String :=
  pyStrip (String.mk (name.data.map (fun c => if keepChar c then c else '_')))

/-- os.path.join for a relative second component. -/
def osPathJoin (a b : String) : String :=
  if a == "" then b else if strEndsWith a "/" then a ++ b else a ++ "/" ++ b

/-- The encryption parameters of one dest.save call. -/
structure EncryptionArgs where
  owner : String
  user : String
  allow : PdfPermissions
  aes : Bool
  R : Nat
deriving DecidableEq, Repr

/-- One dest.save effect: the written path, its encryption parameters, and
the record that produced it (instrumentation tying the effect to its
source record). -/
structure SaveEvent where
  path : String
  encryption : EncryptionArgs
  payslip : EmployeePayslip
deriving DecidableEq, Repr

/-- One element of split_and_encrypt's result list. -/
structure SplitResultItem where
  filename : String
  path : String
  payslip : EmployeePayslip
deriving DecidableEq, Repr

/-- The per-record loop of split_and_encrypt over a source document with
`numPages` pages. A record whose page index is at least the page count is
skipped; otherwise `source.pages[idx]` is read (pikepdf pages index like a
Python list: negative indices at least -numPages wrap, smaller ones raise
IndexError), the page is saved encrypted, and a result dict is appended. -/
def splitLoop (numPages : Nat) (output_dir : String) :
    List EmployeePayslip → Except Unit (List SplitResultItem × List SaveEvent)
  | [] => .ok ([], [])
  | ps :: rest =>
    let pageIdx : Int := ps.page_number
    if (numPages : Int) ≤ pageIdx then splitLoop numPages output_dir rest
    else if pageIdx < -(numPages : Int) then .error ()
    else do
      let safeName := sanitizeFilename ps.filename
      let outputFilename := safeName ++ ".pdf"
      let outputPath := osPathJoin output_dir outputFilename
      let ev : SaveEvent :=
        { path := outputPath,
          encryption :=
            { owner := generate_owner_password (ownerSeed ps),
              user := userPassword ps,
              allow := PRINT_ONLY_PERMISSIONS, aes := true, R := 6 },
          payslip := ps }
      let prev ← splitLoop numPages output_dir rest
      pure ({ filename := outputFilename, path := outputPath, payslip := ps } :: prev.1,
            ev :: prev.2)

/-- split_and_encrypt: split the source into single encrypted pages, return
the result dicts and (as instrumentation) the save effects. -/
def split_and_encrypt (numPages : Nat) (output_dir : String)
    (payslips : List EmployeePayslip) :
    Except Unit (List SplitResultItem × List SaveEvent) :=
  splitLoop numPages output_dir payslips

/-! ### email_sender.py -/

/-- The arguments of one send_payslip_email call. -/
structure SendArgs where
  recipient_email : String
  employee_name : String
  period : String
  pdf_path : String
  pdf_filename : String
deriving DecidableEq, Repr

/-- The `{success, error}` dict returned by send_payslip_email (the SMTP
transport outcome, an external collaborator). -/
structure SendResult where
  success : Bool
  error : Option String
deriving DecidableEq, Repr

/-- One element of send_all_payslips's result list. -/
structure SendOutcome where
  employee_name : String
  email : Option String
  filename : String
  success : Bool
  error : Option String
deriving DecidableEq, Repr

/-- The human-readable period string built by send_all_payslips. -/
def buildPeriod (ps : EmployeePayslip) : String :=
  if pyTruthyInt ps.month && pyTruthyInt ps.year then
    hebrewMonthsGet (ps.month.getD 0) (toString (ps.month.getD 0)) ++ " " ++
      toString (ps.year.getD 0)
  else if pyTruthyInt ps.year then toString (ps.year.getD 0)
  else "לא ידוע"

/-- The send_payslip_email arguments for one processed item (only built when
the record's email is truthy, in which case recipient_email is that email). -/
def buildSendArgs (item : SplitResultItem) : SendArgs :=
  { recipient_email := (item.payslip.email).getD ""
  , employee_name := pyOrStr item.payslip.name "עובד/ת"
  , period := buildPeriod item.payslip
  , pdf_path := item.path
  , pdf_filename := item.filename }

/-- send_all_payslips over a transport collaborator: one outcome per item in
input order; items without a truthy email get the fixed failure outcome and
no transport call; the transport-call trace is returned alongside. -/
def send_all_payslips (transport : SendArgs → SendResult) :
    List SplitResultItem → List SendOutcome × List SendArgs
  | [] => ([], [])
  | item :: rest =>
    let ps := item.payslip
    let prev := send_all_payslips transport rest
    if !pyTruthyStr ps.email then
      ({ employee_name := pyOrStr ps.name "Unknown", email := none,
         filename := item.filename, success := false,
         error := some "No email address found in payslip" } :: prev.1, prev.2)
    else
      let args := buildSendArgs item
      let r := transport args
      ({ employee_name := pyOrStr ps.name "Unknown", email := ps.email,
         filename := item.filename, success := r.success,
         error := r.error } :: prev.1, args :: prev.2)

/-! ### app.py: the /process route's effect on the session map -/

/-- One upload session's stored data. -/
structure SessionData where
  pdf_path : String
  original_filename : String
  session_dir : String
  preview_dir : String
  payslips : List EmployeePayslip
deriving DecidableEq, Repr

/-- The process-wide _sessions dict. -/
abbrev SessionMap := List (String × SessionData)

/-- `_sessions.get(session_id)`. -/
def lookupSession (m : SessionMap) (sid : String) : Option SessionData :=
  (m.find? (fun p => p.1 == sid)).map (fun p => p.2)

/-- In-place update of one session's stored data. -/
def setSession (m : SessionMap) (sid : String) (s : SessionData) : SessionMap :=
  m.map (fun p => if p.1 == sid then (p.1, s) else p)

/-- `_sessions.pop(session_id, None)`. -/
def popSession (m : SessionMap) (sid : String) : SessionMap :=
  m.filter (fun p => p.1 != sid)

/-- The operator's form edits applied in place to the session's records:
name/employee_id/email are replaced when present in the form, month/year
only when the submitted value is a nonempty digit string. -/
def applyFormEdits (form : String → Option String)
    (payslips : List EmployeePayslip) : List EmployeePayslip :=
  payslips.enum.map (fun ip =>
    let i := ip.1
    let ps := ip.2
    let name := match form ("name_" ++ toString i) with
      | some v => some v
      | none => ps.name
    let eid := match form ("employee_id_" ++ toString i) with
      | some v => some v
      | none => ps.employee_id
    let email := match form ("email_" ++ toString i) with
      | some v => some v
      | none => ps.email
    let monthVal := (form ("month_" ++ toString i)).getD ""
    let month := if monthVal != "" && pyIsdigit monthVal
      then some (strToInt monthVal) else ps.month
    let yearVal := (form ("year_" ++ toString i)).getD ""
    let year := if yearVal != "" && pyIsdigit yearVal
      then some (strToInt yearVal) else ps.year
    { ps with
      name := name
      employee_id := eid
      email := email
      month := month
      year := year })

/-- The validation pass: one message per missing name and per missing
employee id, in page order. -/
def validationErrors (payslips : List EmployeePayslip) : List String :=
  (payslips.map (fun ps =>
    (if !pyTruthyStr ps.name
     then ["עמוד " ++ toString (ps.page_number + 1) ++ ": חסר שם עובד"] else []) ++
    (if !pyTruthyStr ps.employee_id
     then ["עמוד " ++ toString (ps.page_number + 1) ++ ": חסר מספר ת.ז"] else []))).flatten

/-- The observable outcome of one /process request. After validation the
route creates a batch and records through the persistence collaborator (not
modelled here); processingFailed is the path where split_and_encrypt raised
and the batch was marked "failed", completed the path where delivery results
were recorded and the batch was marked "completed". -/
inductive ProcessOutcome where
  | notFound
  | validationFailed (errors : List String)
  | processingFailed
  | completed
deriving DecidableEq, Repr

/-- The /process route's effect on the session map. `splitOk` abstracts
whether the split_and_encrypt call raised (the source document is only
available behind the filesystem collaborator). The session is popped only on
the completed path; the validation-failure and split-failure paths redirect
back to the preview of the same still-stored session. -/
def process (sessions : SessionMap) (sid : String)
    (form : String → Option String) (splitOk : Bool) :
    SessionMap × ProcessOutcome :=
  match lookupSession sessions sid with
  | none => (sessions, .notFound)
  | some sess =>
    let edited := applyFormEdits form sess.payslips
    let sessions1 := setSession sessions sid { sess with payslips := edited }
    let errors := validationErrors edited
    if !errors.isEmpty then (sessions1, .validationFailed errors)
    else if !splitOk then (sessions1, .processingFailed)
    else (popSession sessions1 sid, .completed)

/-! ### Statement-level abbreviations and concrete witness inputs -/

/-- The five extracted fields are all None in an entry. -/
def fiveNull (e : Entry) : Prop :=
  entryGet e "name" = .vNone ∧ entryGet e "employee_id" = .vNone ∧
  entryGet e "email" = .vNone ∧ entryGet e "month" = .vNone ∧
  entryGet e "year" = .vNone

/-- A correction table is chain-free: no nonempty right value is itself a
wrong-value key of the same field's mapping (unless it maps to itself). -/
def chainFree (cs : Corrections) : Prop :=
  ∀ fc ∈ cs, ∀ p ∈ fc.2, p.2 ≠ "" →
    fmLookup fc.2 p.2 = none ∨ fmLookup fc.2 p.2 = some p.2

/-- A value that one field's mapping cannot correct: falsy, or a hashable
non-key (ints and bools never equal the string keys; a nonempty string must
miss the mapping). -/
def uncorrectable (v : PyVal) (m : FieldMap) : Prop :=
  match v with
  | .vStr s => s = "" ∨ fmLookup m s = none
  | .vList l => l = []
  | .vDict kvs => kvs = []
  | _ => True

/-- Every binding of a key in an entry holds one fixed value. -/
def allVals (e : Entry) (k : String) (v : PyVal) : Prop :=
  ∀ p ∈ e, p.1 = k → p.2 = v

/-- A key occurs in an entry. -/
def keyMem (e : Entry) (k : String) : Bool :=
  (e.find? (fun p => p.1 == k)).isSome

instance (cs : Corrections) : Decidable (chainFree cs) :=
  decidable_of_iff (∀ fc ∈ cs, ∀ p ∈ fc.2, p.2 ≠ "" →
    fmLookup fc.2 p.2 = none ∨ fmLookup fc.2 p.2 = some p.2) Iff.rfl

/-- The concrete chaining corrections table of the C3 counterexample. -/
def chainTable : Corrections := [("name", [("a", "b"), ("b", "c")])]

/-- The concrete extraction result of the C3 counterexample. -/
def chainEntries : List Entry := [[("name", PyVal.vStr "a")]]

/-- A concrete chain-free corrections table. -/
def okTable : Corrections := [("name", [("a", "b")])]

/-- A concrete extraction entry list for correction witnesses. -/
def okEntries : List Entry :=
  [[("page_number", PyVal.vInt 0), ("name", PyVal.vStr "a"),
    ("email", PyVal.vStr "x@y.com"), ("raw_text", PyVal.vStr "טקסט")]]

/-- The corrected form of okEntries under okTable. -/
def okEntriesAfter : List Entry :=
  [[("page_number", PyVal.vInt 0), ("name", PyVal.vStr "b"),
    ("email", PyVal.vStr "x@y.com"), ("raw_text", PyVal.vStr "טקסט")]]

/-- Concrete pages for the vision-extraction witness: a page whose call
returns well-formed JSON, and a page whose call raises a transport error. -/
def pagesW : List VisionPage :=
  [{ raw_text := "raw0",
     call := .ok "\x7b\"name\": \"דנה כהן\", \"employee_id\": \"123456789\", \"email\": null, \"month\": 3, \"year\": 2024\x7d" },
   { raw_text := "raw1", call := .error () }]

/-- A concrete regex-engine behavior used to witness the period parser: the
first pattern family matches with groups 01 and 2024, the others match
nothing. -/
def searchW : ReSearch := fun p _ =>
  match p with
  | .numericLabeled => some ("01", "2024")
  | .hebrewLabeled => none
  | .bareNumeric => none

/-- A concrete complete payslip used by witnesses. -/
def psW : EmployeePayslip :=
  { page_number := 0, name := some "דנה כהן", employee_id := some "123456789",
    email := some "dana@example.com", month := some 3, year := some 2024 }

/-- A concrete payslip with no email and no period, used by witnesses. -/
def psNoEmail : EmployeePayslip :=
  { page_number := 1, name := some "יוסי לוי", employee_id := some "987654321" }

/-- A concrete payslip whose month is set and in range while the year is the
(present but falsy) integer 0. -/
def psYearZero : EmployeePayslip :=
  { page_number := 0, name := some "דנה כהן", month := some 1, year := some 0 }

/-- A concrete payslip with a month set and no year. -/
def psMonthOnly : EmployeePayslip :=
  { page_number := 2, name := some "דנה כהן", month := some 5 }

/-- A concrete payslip with a negative page index. -/
def psNeg : EmployeePayslip := { page_number := -1, name := some "דנה כהן" }

/-- A concrete payslip with page index below -(page count) for a one-page
document. -/
def psNeg2 : EmployeePayslip := { page_number := -2, name := some "דנה כהן" }

/-- A concrete payslip whose page index exceeds a one-page document. -/
def psPage5 : EmployeePayslip := { page_number := 5, name := some "יוסי לוי" }

/-- A concrete stored session used by witnesses. -/
def sessW : SessionData :=
  { pdf_path := "uploads/s/payslips.pdf", original_filename := "payslips.pdf",
    session_dir := "uploads/s", preview_dir := "uploads/s/previews",
    payslips := [psW] }

/-- An empty form (no operator edits). -/
def formNone : String → Option String := fun _ => none

end PaySlips

namespace PaySlips

/-! ### Sanity checks of the hash embedding against published vectors -/

set_option maxRecDepth 20000 in
/-- FIPS 180-4 known-answer check: SHA-256 of "abc". -/
theorem sha256_known_vector_abc :
    sha256Words [97, 98, 99] =
      [3128432319, 2399260650, 1094795486, 1571693091,
       2953011619, 2518121116, 3021012833, 4060091821] := by decide

set_option maxRecDepth 20000 in
/-- Known-answer check of the hex digest (compared by code point). -/
theorem sha256_known_vector_hex :
    (sha256HexChars (utf8Bytes "abc")).map Char.toNat =
      "ba7816bf8f01cfea414140de5dae2223b00361a396177a9cb410ff61f20015ad".data.map
        Char.toNat := by decide

/-! ### Generic helper lemmas -/

/-- Containment of the middle part of a three-part concatenation. -/
theorem strContains_middle (a b c : String) : strContains (a ++ b ++ c) b := by
  refine ⟨a.data, c.data, ?_⟩
  simp [String.data_append]

/-- Containment of the right part of a concatenation. -/
theorem strContains_right (a b : String) : strContains (a ++ b) b := by
  refine ⟨a.data, [], ?_⟩
  simp [String.data_append]

/-! ### C6 / C9: the derived display filename -/

/-- The truthy-month, truthy-year branch of the filename. -/
theorem filename_both (ps : EmployeePayslip) (m y : Int)
    (hm : ps.month = some m) (hm0 : m ≠ 0) (hy : ps.year = some y) (hy0 : y ≠ 0) :
    ps.filename = ps.displayName ++ " - " ++ hebrewMonthsGet m (toString m) ++
      " " ++ toString y := by
  unfold EmployeePayslip.filename formatFilename
  rw [hm, hy]
  simp [pyTruthyInt, hm0, hy0]

/-- The year-only branch of the filename. -/
theorem filename_year_only (ps : EmployeePayslip) (y : Int)
    (hm : pyTruthyInt ps.month = false) (hy : ps.year = some y) (hy0 : y ≠ 0) :
    ps.filename = ps.displayName ++ " - " ++ toString y := by
  unfold EmployeePayslip.filename formatFilename
  rw [hy, hm]
  simp [pyTruthyInt, hy0]

/-- The degenerate branch of the filename. -/
theorem filename_neither (ps : EmployeePayslip)
    (hy : pyTruthyInt ps.year = false) :
    ps.filename = ps.displayName := by
  unfold EmployeePayslip.filename formatFilename
  rw [hy]
  simp

/-- C6 counterexample: a Record whose month is 1 (present, in [1,12]) and
whose year is the present integer 0 produces a filename that contains
neither the localized month name nor the year — the claim's "present" must
be strengthened to Python truthiness (present and nonzero). -/
theorem C6_counterexample :
    psYearZero.month = some 1 ∧ psYearZero.year = some 0 ∧
    psYearZero.filename = "דנה כהן" ∧
    ¬ strContains psYearZero.filename "ינואר" ∧
    ¬ strContains psYearZero.filename "0" := by decide

/-- C6 (amended): for every Record, when month ∈ [1,12] and the year is
present and nonzero the derived display filename contains the localized
month name and the year; when the month is absent and the year is present
and nonzero it is the display name followed by just the year; when both are
absent it is exactly the display name. -/
theorem C6_display_filename (ps : EmployeePayslip) :
    (∀ m y, ps.month = some m → 1 ≤ m → m ≤ 12 → ps.year = some y → y ≠ 0 →
      strContains ps.filename (hebrewMonthsGet m (toString m)) ∧
      strContains ps.filename (toString y)) ∧
    (∀ y, ps.month = none → ps.year = some y → y ≠ 0 →
      ps.filename = ps.displayName ++ " - " ++ toString y) ∧
    (ps.month = none → ps.year = none → ps.filename = ps.displayName) := by
  refine ⟨fun m y hm h1 _ hy hy0 => ?_, fun y hm hy hy0 => ?_, fun hm hy => ?_⟩
  · rw [filename_both ps m y hm (by omega) hy hy0]
    constructor
    · refine ⟨(ps.displayName ++ " - ").data, (" " ++ toString y).data, ?_⟩
      simp [String.data_append]
    · refine ⟨(ps.displayName ++ " - " ++ hebrewMonthsGet m (toString m) ++ " ").data,
        [], ?_⟩
      simp [String.data_append]
  · exact filename_year_only ps y (by rw [hm]; rfl) hy hy0
  · exact filename_neither ps (by rw [hy]; rfl)

/-- C6 witness: the concrete complete payslip has March 2024 in its
filename. -/
theorem C6_display_filename_witness :
    (psW.month = some 3 ∧ (1 : Int) ≤ 3 ∧ (3 : Int) ≤ 12 ∧
      psW.year = some 2024 ∧ (2024 : Int) ≠ 0) ∧
    (strContains psW.filename (hebrewMonthsGet 3 (toString (3 : Int))) ∧
      strContains psW.filename (toString (2024 : Int))) :=
  ⟨by decide,
   (C6_display_filename psW).1 3 2024 rfl (by decide) (by decide) rfl (by decide)⟩

/-- C9: a Record with a month in [1,12] but no year gets a filename that is
exactly the bare display name — the month is silently dropped, and no
localized month name appears unless the name itself contains one. -/
theorem C9_month_without_year (ps : EmployeePayslip) (m : Int)
    (hm : ps.month = some m) (h1 : 1 ≤ m) (h2 : m ≤ 12) (hy : ps.year = none) :
    ps.filename = ps.displayName ∧
    (∀ pr ∈ HEBREW_MONTHS, ¬ strContains ps.displayName pr.2 →
      ¬ strContains ps.filename pr.2) := by
  have hf := filename_neither ps (by rw [hy]; rfl)
  exact ⟨hf, fun pr _ h => by rw [hf]; exact h⟩

/-- C9 witness: a payslip with month 5 and no year keeps only its name. -/
theorem C9_month_without_year_witness :
    (psMonthOnly.month = some 5 ∧ psMonthOnly.year = none) ∧
    psMonthOnly.filename = psMonthOnly.displayName :=
  ⟨by decide, (C9_month_without_year psMonthOnly 5 rfl (by decide) (by decide) rfl).1⟩

/-! ### C7: the period parser -/

/-- Every HEBREW_MONTHS key is between 1 and 12. -/
theorem hebrewMonths_bounds : ∀ pr ∈ HEBREW_MONTHS, 1 ≤ pr.1 ∧ pr.1 ≤ 12 := by
  decide

/-- A successful reverse month-name lookup is between 1 and 12. -/
theorem hebrewToNum_bounds (s : String) (mn : Int) (h : hebrewToNum s = some mn) :
    1 ≤ mn ∧ mn ≤ 12 := by
  unfold hebrewToNum at h
  cases hf : HEBREW_MONTHS.find? (fun p => p.2 == s) with
  | none => rw [hf] at h; cases h
  | some pr =>
    rw [hf] at h
    simp only [Option.map_some'] at h
    cases h
    exact hebrewMonths_bounds pr (List.mem_of_find?_eq_some hf)

/-- Any candidate accepted by a single pattern is in range. -/
theorem tryPeriodPattern_range (search : ReSearch) (text : String)
    (p : PeriodPattern) (m y : Int)
    (h : tryPeriodPattern search text p = some (m, y)) :
    1 ≤ m ∧ m ≤ 12 ∧ 1900 ≤ y ∧ y ≤ 2100 := by
  unfold tryPeriodPattern at h
  cases hs : search p text with
  | none => rw [hs] at h; cases h
  | some g =>
    rw [hs] at h
    obtain ⟨g1r, g2r⟩ := g
    by_cases hd : pyIsdigit (pyStrip g1r) = true
    · simp only [hd, if_true] at h
      by_cases hb : 1 ≤ strToInt (pyStrip g1r) ∧ strToInt (pyStrip g1r) ≤ 12 ∧
          1900 ≤ strToInt (pyStrip g2r) ∧ strToInt (pyStrip g2r) ≤ 2100
      · rw [if_pos hb] at h
        cases h
        exact hb
      · rw [if_neg hb] at h
        cases h
    · simp only [hd, if_false, Bool.false_eq_true] at h
      cases hh : hebrewToNum (pyStrip g1r) with
      | none => rw [hh] at h; cases h
      | some mn =>
        rw [hh] at h
        by_cases hg : (mn != 0 && pyIsdigit (pyStrip g2r)) = true
        · simp only [hg, if_true] at h
          by_cases hy : 1900 ≤ strToInt (pyStrip g2r) ∧ strToInt (pyStrip g2r) ≤ 2100
          · rw [if_pos hy] at h
            cases h
            have hmb := hebrewToNum_bounds (pyStrip g1r) _ hh
            exact ⟨hmb.1, hmb.2, hy.1, hy.2⟩
          · rw [if_neg hy] at h
            cases h
        · simp only [hg, if_false, Bool.false_eq_true] at h
          cases h

/-- C7: under any regex-engine behavior consistent with the source patterns
(digit first group forces digit second group), the period parser returns
either (None, None) or an accepted pair with month ∈ [1,12] and year ∈
[1900,2100], and the three pattern families are consulted in source order
with first-acceptance-wins. -/
theorem C7_parse_month_year (search : ReSearch) (text : String)
    (hs : searchDigitGroups search) :
    (parseMonthYear search text = (none, none) ∨
      ∃ m y, parseMonthYear search text = (some m, some y) ∧
        1 ≤ m ∧ m ≤ 12 ∧ 1900 ≤ y ∧ y ≤ 2100) ∧
    (∀ c, tryPeriodPattern search text .numericLabeled = some c →
      parseMonthYear search text = (some c.1, some c.2)) ∧
    (tryPeriodPattern search text .numericLabeled = none →
      ∀ c, tryPeriodPattern search text .hebrewLabeled = some c →
        parseMonthYear search text = (some c.1, some c.2)) ∧
    (tryPeriodPattern search text .numericLabeled = none →
      tryPeriodPattern search text .hebrewLabeled = none →
      ∀ c, tryPeriodPattern search text .bareNumeric = some c →
        parseMonthYear search text = (some c.1, some c.2)) ∧
    (tryPeriodPattern search text .numericLabeled = none →
      tryPeriodPattern search text .hebrewLabeled = none →
      tryPeriodPattern search text .bareNumeric = none →
      parseMonthYear search text = (none, none)) := by
  refine ⟨?_, ?_, ?_, ?_, ?_⟩
  · rcases e1 : tryPeriodPattern search text .numericLabeled with _ | ⟨m1, y1⟩
    · rcases e2 : tryPeriodPattern search text .hebrewLabeled with _ | ⟨m2, y2⟩
      · rcases e3 : tryPeriodPattern search text .bareNumeric with _ | ⟨m3, y3⟩
        · left
          simp [parseMonthYear, PERIOD_PATTERNS, periodLoop, e1, e2, e3]
        · right
          obtain ⟨b1, b2, b3, b4⟩ := tryPeriodPattern_range search text _ m3 y3 e3
          exact ⟨m3, y3,
            by simp [parseMonthYear, PERIOD_PATTERNS, periodLoop, e1, e2, e3],
            b1, b2, b3, b4⟩
      · right
        obtain ⟨b1, b2, b3, b4⟩ := tryPeriodPattern_range search text _ m2 y2 e2
        exact ⟨m2, y2,
          by simp [parseMonthYear, PERIOD_PATTERNS, periodLoop, e1, e2],
          b1, b2, b3, b4⟩
    · right
      obtain ⟨b1, b2, b3, b4⟩ := tryPeriodPattern_range search text _ m1 y1 e1
      exact ⟨m1, y1,
        by simp [parseMonthYear, PERIOD_PATTERNS, periodLoop, e1],
        b1, b2, b3, b4⟩
  · intro c hc
    simp [parseMonthYear, PERIOD_PATTERNS, periodLoop, hc]
  · intro h1 c hc
    simp [parseMonthYear, PERIOD_PATTERNS, periodLoop, h1, hc]
  · intro h1 h2 c hc
    simp [parseMonthYear, PERIOD_PATTERNS, periodLoop, h1, h2, hc]
  · intro h1 h2 h3
    simp [parseMonthYear, PERIOD_PATTERNS, periodLoop, h1, h2, h3]

/-- C7 witness: the concrete engine matching 01/2024 on the first family
parses to (1, 2024). -/
theorem C7_parse_month_year_witness :
    searchDigitGroups searchW ∧
    parseMonthYear searchW "תלוש שכר" = (some 1, some 2024) := by
  have hwf : searchDigitGroups searchW := by
    intro p text g1 g2 h hd
    cases p with
    | numericLabeled =>
      simp only [searchW, Option.some.injEq, Prod.mk.injEq] at h
      rw [← h.2]
      decide
    | hebrewLabeled => simp [searchW] at h
    | bareNumeric => simp [searchW] at h
  refine ⟨hwf, ?_⟩
  have := (C7_parse_month_year searchW "תלוש שכר" hwf).2.1 (1, 2024) (by decide)
  simpa using this

/-! ### C4: session lifecycle of the /process route -/

/-- A popped session id no longer resolves. -/
theorem lookupSession_pop (m : SessionMap) (sid : String) :
    lookupSession (popSession m sid) sid = none := by
  induction m with
  | nil => rfl
  | cons p rest ih =>
    simp only [popSession, List.filter_cons]
    by_cases h : p.1 = sid
    · have hb : (p.1 != sid) = false := by simp [h]
      rw [hb]
      simpa [popSession] using ih
    · have hb : (p.1 != sid) = true := by simp [h]
      rw [hb]
      have hb2 : (p.1 == sid) = false := by simp [h]
      simp only [lookupSession, List.find?, hb2]
      simpa [popSession, lookupSession] using ih

/-- Updating a stored session rewrites exactly that id's entry. -/
theorem lookupSession_set (m : SessionMap) (sid : String) (s : SessionData) :
    lookupSession (setSession m sid s) sid =
      (lookupSession m sid).map (fun _ => s) := by
  induction m with
  | nil => rfl
  | cons p rest ih =>
    by_cases h : p.1 == sid
    · simp [setSession, lookupSession, List.find?, h]
    · simp [setSession, lookupSession, List.find?, h] at ih ⊢
      exact ih

/-- C4 counterexample: when artifact production fails the batch is marked
failed but the session is NOT removed: it still resolves, and a second
processing attempt on the same identifier then completes — the claim's
"success or failure" must be weakened to the completed path only. -/
theorem C4_counterexample :
    (process [("s", sessW)] "s" formNone false).2 = .processingFailed ∧
    lookupSession (process [("s", sessW)] "s" formNone false).1 "s" = some sessW ∧
    (process (process [("s", sessW)] "s" formNone false).1 "s" formNone true).2 =
      .completed := by decide

/-- C4 (amended): lookup of an unknown identifier is a plain not-found
outcome with the map unchanged; a completed run removes the session id; a
split-failure run (batch marked failed) retains the session, stored with
the operator's edits applied. -/
theorem C4_session_lifecycle (sessions : SessionMap) (sid : String)
    (form : String → Option String) (splitOk : Bool) :
    (lookupSession sessions sid = none →
      process sessions sid form splitOk = (sessions, .notFound)) ∧
    ((process sessions sid form splitOk).2 = .completed →
      lookupSession (process sessions sid form splitOk).1 sid = none) ∧
    ((process sessions sid form splitOk).2 = .processingFailed →
      ∀ sess, lookupSession sessions sid = some sess →
        lookupSession (process sessions sid form splitOk).1 sid =
          some { sess with payslips := applyFormEdits form sess.payslips }) := by
  cases hl : lookupSession sessions sid with
  | none =>
    refine ⟨fun _ => by simp [process, hl], ?_, ?_⟩
    · intro h
      simp [process, hl] at h
    · intro h
      simp [process, hl] at h
  | some sess =>
    refine ⟨?_, ?_, ?_⟩
    · intro h
      exact Option.noConfusion h
    · intro h
      by_cases herr :
          (validationErrors (applyFormEdits form sess.payslips)).isEmpty = true
      · cases hsOk : splitOk with
        | false =>
          simp [process, hl, herr, hsOk] at h
        | true =>
          simp [process, hl, herr, hsOk, lookupSession_pop]
      · simp [process, hl, herr] at h
    · intro h sess2 hsess2
      injection hsess2 with he
      subst he
      by_cases herr :
          (validationErrors (applyFormEdits form sess.payslips)).isEmpty = true
      · cases hsOk : splitOk with
        | false =>
          simp [process, hl, herr, hsOk, lookupSession_set]
        | true =>
          simp [process, hl, herr, hsOk] at h
      · simp [process, hl, herr] at h

/-- C4 witness: an unknown id is a plain not-found outcome; a completed run
removes the session. -/
theorem C4_session_lifecycle_witness :
    (lookupSession [] "missing" = none ∧
      process [] "missing" formNone true = ([], .notFound)) ∧
    ((process [("s", sessW)] "s" formNone true).2 = .completed ∧
      lookupSession (process [("s", sessW)] "s" formNone true).1 "s" = none) :=
  ⟨⟨rfl, (C4_session_lifecycle [] "missing" formNone true).1 rfl⟩,
   ⟨by decide, (C4_session_lifecycle [("s", sessW)] "s" formNone true).2.1
      (by decide)⟩⟩

/-! ### C8: the delivery dispatcher -/

/-- C8: for every transport behavior and processed list, the dispatcher
returns exactly one outcome per input item in input order; an item without a
truthy email yields the fixed no-email failure outcome; an item with an
email yields the transport's outcome for its arguments; and the transport
call trace is exactly one call, in order, per item that has an email — no
call for email-less items, and no retries. -/
theorem C8_send_all_payslips (transport : SendArgs → SendResult)
    (processed : List SplitResultItem) :
    (send_all_payslips transport processed).1.length = processed.length ∧
    (∀ i item, processed.get? i = some item →
      pyTruthyStr item.payslip.email = false →
      (send_all_payslips transport processed).1.get? i = some
        { employee_name := pyOrStr item.payslip.name "Unknown", email := none,
          filename := item.filename, success := false,
          error := some "No email address found in payslip" }) ∧
    (∀ i item, processed.get? i = some item →
      pyTruthyStr item.payslip.email = true →
      (send_all_payslips transport processed).1.get? i = some
        { employee_name := pyOrStr item.payslip.name "Unknown",
          email := item.payslip.email, filename := item.filename,
          success := (transport (buildSendArgs item)).success,
          error := (transport (buildSendArgs item)).error }) ∧
    (send_all_payslips transport processed).2 =
      (processed.filter (fun it => pyTruthyStr it.payslip.email)).map
        buildSendArgs := by
  induction processed with
  | nil =>
    refine ⟨rfl, ?_, ?_, rfl⟩ <;> intro i item h _ <;> simp at h
  | cons item rest ih =>
    obtain ⟨ihLen, ihNo, ihYes, ihCalls⟩ := ih
    by_cases he : pyTruthyStr item.payslip.email
    · refine ⟨?_, ?_, ?_, ?_⟩
      · simpa [send_all_payslips, he] using ihLen
      · intro i it hit hfalse
        cases i with
        | zero =>
          simp only [List.get?] at hit
          cases hit
          rw [he] at hfalse
          cases hfalse
        | succ n =>
          simp only [List.get?] at hit
          simpa [send_all_payslips, he] using ihNo n it hit hfalse
      · intro i it hit htrue
        cases i with
        | zero =>
          simp only [List.get?] at hit
          cases hit
          simp [send_all_payslips, he]
        | succ n =>
          simp only [List.get?] at hit
          simpa [send_all_payslips, he] using ihYes n it hit htrue
      · simpa [send_all_payslips, he] using ihCalls
    · refine ⟨?_, ?_, ?_, ?_⟩
      · simpa [send_all_payslips, he] using ihLen
      · intro i it hit hfalse
        cases i with
        | zero =>
          simp only [List.get?] at hit
          cases hit
          simp [send_all_payslips, he]
        | succ n =>
          simp only [List.get?] at hit
          simpa [send_all_payslips, he] using ihNo n it hit hfalse
      · intro i it hit htrue
        cases i with
        | zero =>
          simp only [List.get?] at hit
          cases hit
          rw [htrue] at he
          simp at he
        | succ n =>
          simp only [List.get?] at hit
          simpa [send_all_payslips, he] using ihYes n it hit htrue
      · simpa [send_all_payslips, he] using ihCalls

/-! ### C1: the splitter's out-of-range handling -/

set_option maxRecDepth 10000 in
/-- C1 counterexample: for a one-page document, a Record with page_index -1
is outside [0, 1) yet is NOT excluded (pikepdf wraps negative indices like a
Python list), and a Record with page_index -2 makes the call raise
IndexError — the claim's exclusion guarantee only holds on the upper side. -/
theorem C1_counterexample :
    (psNeg.page_number < 0 ∧ psNeg2.page_number < 0) ∧
    (split_and_encrypt 1 "out" [psNeg]).map
      (fun pr => pr.1.map SplitResultItem.payslip) = .ok [psNeg] ∧
    split_and_encrypt 1 "out" [psNeg2] = .error () :=
  ⟨by decide, rfl, rfl⟩

/-- C1 (amended): for Records with nonnegative page indices, every Record
whose page index is at least the page count is excluded without raising, and
every in-range Record yields exactly one result tuple (filename, path,
record), in input order, together with exactly one encrypted save. -/
theorem C1_split_excludes (numPages : Nat) (dir : String)
    (payslips : List EmployeePayslip)
    (hnn : ∀ ps ∈ payslips, 0 ≤ ps.page_number) :
    split_and_encrypt numPages dir payslips = .ok
      ((payslips.filter (fun ps => ps.page_number < (numPages : Int))).map
        (fun ps =>
          { filename := sanitizeFilename ps.filename ++ ".pdf",
            path := osPathJoin dir (sanitizeFilename ps.filename ++ ".pdf"),
            payslip := ps }),
       (payslips.filter (fun ps => ps.page_number < (numPages : Int))).map
        (fun ps =>
          { path := osPathJoin dir (sanitizeFilename ps.filename ++ ".pdf"),
            encryption :=
              { owner := generate_owner_password (ownerSeed ps),
                user := userPassword ps,
                allow := PRINT_ONLY_PERMISSIONS, aes := true, R := 6 },
            payslip := ps })) := by
  induction payslips with
  | nil => rfl
  | cons ps rest ih =>
    have h0 : 0 ≤ ps.page_number := hnn ps (List.mem_cons_self _ _)
    have hrest := ih (fun q hq => hnn q (List.mem_cons_of_mem _ hq))
    by_cases hcase : (numPages : Int) ≤ ps.page_number
    · have hflt : ¬ (ps.page_number < (numPages : Int)) := by omega
      show splitLoop numPages dir (ps :: rest) = _
      rw [splitLoop, if_pos hcase]
      rw [List.filter_cons_of_neg (by simpa using hflt)]
      exact hrest
    · have hflt : ps.page_number < (numPages : Int) := by omega
      have hneg : ¬ (ps.page_number < -(numPages : Int)) := by omega
      show splitLoop numPages dir (ps :: rest) = _
      rw [splitLoop, if_neg hcase, if_neg hneg]
      rw [List.filter_cons_of_pos (by simpa using hflt)]
      show Except.bind (splitLoop numPages dir rest) _ = _
      rw [show splitLoop numPages dir rest = _ from hrest]
      rfl

set_option maxRecDepth 10000 in
/-- C1 witness: a two-record batch over a one-page document keeps exactly
the in-range record. -/
theorem C1_split_excludes_witness :
    (∀ ps ∈ [psW, psPage5], 0 ≤ ps.page_number) ∧
    (split_and_encrypt 1 "output/7" [psW, psPage5]).map
      (fun pr => pr.1.map SplitResultItem.payslip) = .ok [psW] := by
  have h := C1_split_excludes 1 "output/7" [psW, psPage5] (by decide)
  refine ⟨by decide, ?_⟩
  rw [h]
  rfl

/-! ### C2: the two-password encryption policy -/

/-- One compression round keeps the eight-word state shape. -/
theorem compressRound_length (st : List Nat) (wk : Nat × Nat) :
    (compressRound st wk).length = 8 := rfl

/-- The compression loop keeps the eight-word state shape. -/
theorem foldl_compressRound_length (pairs : List (Nat × Nat)) (st : List Nat)
    (h : st.length = 8) : (pairs.foldl compressRound st).length = 8 := by
  induction pairs generalizing st with
  | nil => exact h
  | cons p ps ih => exact ih _ (compressRound_length _ _)

/-- Block compression keeps the eight-word hash shape. -/
theorem compressBlock_length (H : List Nat) (b : List Nat) (h : H.length = 8) :
    (compressBlock H b).length = 8 := by
  unfold compressBlock
  rw [List.length_map, List.length_zip, h,
    foldl_compressRound_length _ _ h]
  omega

/-- A SHA-256 digest is eight words. -/
theorem sha256Words_length (msg : List Nat) : (sha256Words msg).length = 8 := by
  have key : ∀ (bs : List (List Nat)) (H : List Nat), H.length = 8 →
      (bs.foldl compressBlock H).length = 8 := by
    intro bs
    induction bs with
    | nil => intro H h; exact h
    | cons b rest ih => intro H h; exact ih _ (compressBlock_length _ _ h)
  exact key _ SHA256_H0 rfl

/-- A hex digest is 64 characters. -/
theorem sha256HexChars_length (msg : List Nat) :
    (sha256HexChars msg).length = 64 := by
  have key : ∀ ws : List Nat,
      (ws.foldr (fun w acc => wordHexChars w ++ acc) []).length = 8 * ws.length := by
    intro ws
    induction ws with
    | nil => rfl
    | cons w rest ih =>
      simp only [List.foldr_cons, List.length_append, ih, List.length_cons]
      have : (wordHexChars w).length = 8 := rfl
      omega
  unfold sha256HexChars
  rw [key, sha256Words_length]

/-- The owner password is always exactly 32 characters. -/
theorem generate_owner_password_length (seed : String) :
    (generate_owner_password seed).length = 32 := by
  show (String.mk _).length = 32
  show (List.take 32 _).length = 32
  rw [List.length_take, sha256HexChars_length]
  omega

/-- Save events record exactly the two password derivations of the source,
and belong to an input record. -/
theorem splitLoop_save_events (numPages : Nat) (dir : String) :
    ∀ (payslips : List EmployeePayslip) (res : List SplitResultItem)
      (evs : List SaveEvent),
      splitLoop numPages dir payslips = .ok (res, evs) →
      ∀ ev ∈ evs, ev.encryption.user = userPassword ev.payslip ∧
        ev.encryption.owner = generate_owner_password (ownerSeed ev.payslip) ∧
        ev.encryption.allow = PRINT_ONLY_PERMISSIONS ∧
        ev.encryption.aes = true ∧ ev.encryption.R = 6 ∧
        ev.payslip ∈ payslips := by
  intro payslips
  induction payslips with
  | nil =>
    intro res evs h ev hev
    rw [splitLoop] at h
    cases h
    cases hev
  | cons ps rest ih =>
    intro res evs h ev hev
    rw [splitLoop] at h
    by_cases hcase : (numPages : Int) ≤ ps.page_number
    · rw [if_pos hcase] at h
      obtain ⟨hu, ho, ha, hs, hr, hm⟩ := ih res evs h ev hev
      exact ⟨hu, ho, ha, hs, hr, List.mem_cons_of_mem _ hm⟩
    · rw [if_neg hcase] at h
      by_cases hneg : ps.page_number < -(numPages : Int)
      · rw [if_pos hneg] at h
        cases h
      · rw [if_neg hneg] at h
        cases hr : splitLoop numPages dir rest with
        | error e =>
          rw [show (splitLoop numPages dir rest : Except Unit _) = .error e from hr] at h
          cases h
        | ok prev =>
          rw [show (splitLoop numPages dir rest : Except Unit _) = .ok prev from hr] at h
          cases h
          rcases hev with _ | ⟨_, hev⟩
          · exact ⟨rfl, rfl, rfl, rfl, rfl, List.mem_cons_self _ _⟩
          · obtain ⟨hu, ho, ha, hs2, hr2, hm⟩ := ih prev.1 prev.2 (by rw [hr]) ev hev
            exact ⟨hu, ho, ha, hs2, hr2, List.mem_cons_of_mem _ hm⟩

/-- C2: every save encrypts with user password = the record's identity
number as plain text (empty when absent) and owner password = the
hash-derived, fixed-length administrative password; the owner password is a
function of the identity number alone (fixed fallback seed "owner" when
absent), is always 32 characters, and therefore never equals any identity
number whose length is not 32 (identity numbers in this system are 5-9
digit strings). -/
theorem C2_passwords :
    (∀ (numPages : Nat) (dir : String) (payslips : List EmployeePayslip)
      (res : List SplitResultItem) (evs : List SaveEvent),
      split_and_encrypt numPages dir payslips = .ok (res, evs) →
      ∀ ev ∈ evs, ev.encryption.user = userPassword ev.payslip ∧
        ev.encryption.owner = generate_owner_password (ownerSeed ev.payslip) ∧
        ev.payslip ∈ payslips) ∧
    (∀ ps : EmployeePayslip, ps.employee_id = none →
      userPassword ps = "" ∧ ownerSeed ps = "owner") ∧
    (∀ (ps : EmployeePayslip) (s : String), ps.employee_id = some s → s ≠ "" →
      userPassword ps = s ∧ ownerSeed ps = s) ∧
    (∀ ps qs : EmployeePayslip, ps.employee_id = qs.employee_id →
      userPassword ps = userPassword qs ∧ ownerSeed ps = ownerSeed qs) ∧
    (∀ seed : String, (generate_owner_password seed).length = 32) ∧
    (∀ (seed : String) (s : String), s.length ≠ 32 →
      generate_owner_password seed ≠ s) := by
  refine ⟨?_, ?_, ?_, ?_, ?_, ?_⟩
  · intro numPages dir payslips res evs h ev hev
    obtain ⟨hu, ho, _, _, _, hm⟩ :=
      splitLoop_save_events numPages dir payslips res evs h ev hev
    exact ⟨hu, ho, hm⟩
  · intro ps h
    simp [userPassword, ownerSeed, pyOrStr, h]
  · intro ps s h hs
    simp [userPassword, ownerSeed, pyOrStr, h, hs]
  · intro ps qs h
    simp [userPassword, ownerSeed, pyOrStr, h]
  · exact generate_owner_password_length
  · intro seed s hs heq
    rw [← heq] at hs
    exact hs (generate_owner_password_length seed)

/-- C2 witness: for the concrete payslip, the opening password is its
identity number, and the 32-character owner password differs from it. -/
theorem C2_passwords_witness :
    (psW.employee_id = some "123456789" ∧ ("123456789" : String).length ≠ 32) ∧
    userPassword psW = "123456789" ∧
    (generate_owner_password (ownerSeed psW)).length = 32 ∧
    generate_owner_password (ownerSeed psW) ≠ "123456789" :=
  ⟨⟨rfl, by decide⟩,
   (C2_passwords.2.2.1 psW "123456789" rfl (by decide)).1,
   C2_passwords.2.2.2.2.1 (ownerSeed psW),
   C2_passwords.2.2.2.2.2 (ownerSeed psW) "123456789" (by decide)⟩

/-- C8 witness: dispatching one email-less item and one emailed item under
an always-succeeding transport yields the fixed failure outcome for the
first, one transport call for the second. -/
theorem C8_send_all_payslips_witness :
    (pyTruthyStr psNoEmail.email = false ∧ pyTruthyStr psW.email = true) ∧
    ((send_all_payslips (fun _ => { success := true, error := none })
        [{ filename := "a.pdf", path := "o/a.pdf", payslip := psNoEmail },
         { filename := "b.pdf", path := "o/b.pdf", payslip := psW }]).1.get? 0 =
      some { employee_name := pyOrStr psNoEmail.name "Unknown", email := none,
             filename := "a.pdf", success := false,
             error := some "No email address found in payslip" }) ∧
    ((send_all_payslips (fun _ => { success := true, error := none })
        [{ filename := "a.pdf", path := "o/a.pdf", payslip := psNoEmail },
         { filename := "b.pdf", path := "o/b.pdf", payslip := psW }]).2 =
      [buildSendArgs { filename := "b.pdf", path := "o/b.pdf", payslip := psW }]) :=
  ⟨by decide,
   (C8_send_all_payslips (fun _ => { success := true, error := none })
      [{ filename := "a.pdf", path := "o/a.pdf", payslip := psNoEmail },
       { filename := "b.pdf", path := "o/b.pdf", payslip := psW }]).2.1 0
      { filename := "a.pdf", path := "o/a.pdf", payslip := psNoEmail } rfl
      (by decide),
   by
    have := (C8_send_all_payslips (fun _ => { success := true, error := none })
      [{ filename := "a.pdf", path := "o/a.pdf", payslip := psNoEmail },
       { filename := "b.pdf", path := "o/b.pdf", payslip := psW }]).2.2.2
    simpa using this⟩

end PaySlips

namespace PaySlips

/-! ### Entry/correction infrastructure for C3, C5 and C10 -/

/-- Bind of a successful Except. -/
theorem except_bind_ok {α β : Type} (a : α) (f : α → Except Unit β) :
    (Except.ok a >>= f) = f a := rfl

/-- Bind of a failed Except. -/
theorem except_bind_error {α β : Type} (f : α → Except Unit β) :
    ((Except.error () : Except Unit α) >>= f) = Except.error () := rfl

/-- Reading a dict entry: head or tail. -/
theorem entryGet_cons (p : String × PyVal) (rest : Entry) (k : String) :
    entryGet (p :: rest) k = if p.1 == k then p.2 else entryGet rest k := by
  by_cases h : (p.1 == k) = true
  · simp [entryGet, List.find?, h]
  · have h2 : (p.1 == k) = false := by simpa using h
    simp [entryGet, List.find?, h2]

/-- Writing a dict entry: head or tail. -/
theorem entrySet_cons (p : String × PyVal) (rest : Entry) (k : String) (v : PyVal) :
    entrySet (p :: rest) k v =
      (if p.1 == k then (p.1, v) else p) :: entrySet rest k v := rfl

/-- Key membership: head or tail. -/
theorem keyMem_cons (p : String × PyVal) (rest : Entry) (k : String) :
    keyMem (p :: rest) k = (p.1 == k || keyMem rest k) := by
  by_cases h : (p.1 == k) = true
  · simp [keyMem, List.find?, h]
  · have h2 : (p.1 == k) = false := by simpa using h
    simp [keyMem, List.find?, h2]

/-- Writing one key leaves every other key's value unchanged. -/
theorem entryGet_entrySet_ne (e : Entry) (g k : String) (v : PyVal)
    (h : k ≠ g) : entryGet (entrySet e g v) k = entryGet e k := by
  induction e with
  | nil => rfl
  | cons p rest ih =>
    rw [entrySet_cons, entryGet_cons, entryGet_cons]
    by_cases hp : (p.1 == g) = true
    · rw [if_pos hp]
      by_cases hk : (p.1 == k) = true
      · exact absurd (by rw [← eq_of_beq hk, eq_of_beq hp]) h
      · have hk2 : (p.1 == k) = false := by simpa using hk
        simp only [hk2, Bool.false_eq_true, if_false, ih]
    · rw [if_neg hp]
      by_cases hk : (p.1 == k) = true
      · simp only [hk, if_true]
      · have hk2 : (p.1 == k) = false := by simpa using hk
        simp only [hk2, Bool.false_eq_true, if_false, ih]

/-- Writing a present key makes its value the written one. -/
theorem entryGet_entrySet_self (e : Entry) (k : String) (v : PyVal)
    (h : keyMem e k = true) : entryGet (entrySet e k v) k = v := by
  induction e with
  | nil => simp [keyMem, List.find?] at h
  | cons p rest ih =>
    rw [entrySet_cons, entryGet_cons]
    rw [keyMem_cons] at h
    by_cases hp : (p.1 == k) = true
    · rw [if_pos hp]
      simp only [hp, if_true]
    · have hp2 : (p.1 == k) = false := by simpa using hp
      rw [if_neg hp]
      simp only [hp2, Bool.false_eq_true, if_false]
      rw [hp2, Bool.false_or] at h
      exact ih h

/-- Writing values never changes which keys exist. -/
theorem keyMem_entrySet (e : Entry) (g k : String) (v : PyVal) :
    keyMem (entrySet e g v) k = keyMem e k := by
  induction e with
  | nil => rfl
  | cons p rest ih =>
    rw [entrySet_cons, keyMem_cons, keyMem_cons]
    by_cases hp : (p.1 == g) = true
    · rw [if_pos hp]
      simp only [ih]
    · rw [if_neg hp]
      simp only [ih]

/-- A key holding a string value is present. -/
theorem keyMem_of_entryGet_vStr (e : Entry) (k : String) (s : String)
    (h : entryGet e k = .vStr s) : keyMem e k = true := by
  unfold entryGet at h
  unfold keyMem
  cases hf : e.find? (fun p => p.1 == k) with
  | none => rw [hf] at h; cases h
  | some q => simp

/-- After an in-place write, every binding of the key holds the new value. -/
theorem allVals_entrySet_self (e : Entry) (k : String) (v : PyVal) :
    allVals (entrySet e k v) k v := by
  intro p hp hk
  obtain ⟨q, hq, rfl⟩ := List.mem_map.1 hp
  by_cases h : (q.1 == k) = true
  · simp only [h, if_true]
  · have h2 : (q.1 == k) = false := by simpa using h
    simp only [h2, Bool.false_eq_true, if_false] at hk ⊢
    exact absurd hk (fun hkk => by simp [hkk] at h2)

/-- Writing one key preserves the uniform value of another key. -/
theorem allVals_entrySet_ne (e : Entry) (g k : String) (v w : PyVal)
    (hgk : g ≠ k) (h : allVals e k v) : allVals (entrySet e g w) k v := by
  intro p hp hk
  obtain ⟨q, hq, rfl⟩ := List.mem_map.1 hp
  by_cases hb : (q.1 == g) = true
  · simp only [hb, if_true] at hk ⊢
    exact absurd (by rw [← hk, eq_of_beq hb]) hgk.symm
  · have hb2 : (q.1 == g) = false := by simpa using hb
    simp only [hb2, Bool.false_eq_true, if_false] at hk ⊢
    exact h q hq hk

/-- Writing the value every binding already holds is a no-op. -/
theorem entrySet_of_allVals (e : Entry) (k : String) (v : PyVal)
    (h : allVals e k v) : entrySet e k v = e := by
  induction e with
  | nil => rfl
  | cons p rest ih =>
    rw [entrySet_cons]
    have hrest : entrySet rest k v = rest :=
      ih (fun q hq hk => h q (List.mem_cons_of_mem _ hq) hk)
    by_cases hp : (p.1 == k) = true
    · have hv : p.2 = v := h p (List.mem_cons_self _ _) (eq_of_beq hp)
      rw [if_pos hp, hrest, ← hv]
    · rw [if_neg hp, hrest]

/-- A uniform present key reads as its uniform value. -/
theorem entryGet_of_allVals (e : Entry) (k : String) (v : PyVal)
    (h : allVals e k v) (hm : keyMem e k = true) : entryGet e k = v := by
  unfold keyMem at hm
  unfold entryGet
  cases hf : e.find? (fun p => p.1 == k) with
  | none => rw [hf] at hm; cases hm
  | some q =>
    have hql := List.mem_of_find?_eq_some hf
    have hqp : (q.1 == k) = true := by simpa using List.find?_some hf
    exact h q hql (eq_of_beq hqp)

/-- A successful mapping lookup comes from a member pair. -/
theorem fmLookup_mem (m : FieldMap) (s r : String)
    (h : fmLookup m s = some r) : ∃ p ∈ m, p.1 = s ∧ p.2 = r := by
  unfold fmLookup at h
  cases hf : m.find? (fun p => p.1 == s) with
  | none => rw [hf] at h; cases h
  | some q =>
    rw [hf] at h
    simp only [Option.map_some'] at h
    have hpq : (q.1 == s) = true := by simpa using List.find?_some hf
    exact ⟨q, List.mem_of_find?_eq_some hf, eq_of_beq hpq, Option.some.inj h⟩

/-- A field whose current value the mapping cannot correct is left alone. -/
theorem applyField_of_uncorrectable (e : Entry) (f : String) (m : FieldMap)
    (h : uncorrectable (entryGet e f) m) :
    applyFieldCorrection e f m = .ok e := by
  unfold applyFieldCorrection
  unfold uncorrectable at h
  cases hv : entryGet e f with
  | vNone => simp [PyVal.truthy]
  | vBool b => cases b <;> simp [PyVal.truthy]
  | vInt n => by_cases hn : n = 0 <;> simp [PyVal.truthy, hn]
  | vStr s =>
    rw [hv] at h
    rcases h with h | h
    · simp [PyVal.truthy, h]
    · by_cases hs : s = ""
      · simp [PyVal.truthy, hs]
      · simp [PyVal.truthy, hs, h]
  | vList l =>
    rw [hv] at h
    simp [PyVal.truthy, h]
  | vDict kvs =>
    rw [hv] at h
    simp [PyVal.truthy, h]

/-- The correcting branch: a truthy string value that is a key of the
mapping is replaced in place. -/
theorem applyField_set (e : Entry) (f : String) (m : FieldMap) (s r : String)
    (hv : entryGet e f = .vStr s) (hs : s ≠ "") (hl : fmLookup m s = some r) :
    applyFieldCorrection e f m = .ok (entrySet e f (.vStr r)) := by
  unfold applyFieldCorrection
  rw [hv]
  simp [PyVal.truthy, hs, hl]

/-- Case analysis of one successful field-correction step. -/
theorem applyField_cases (e : Entry) (f : String) (m : FieldMap)
    (e2 : Entry) (h : applyFieldCorrection e f m = .ok e2) :
    (uncorrectable (entryGet e f) m ∧ e2 = e) ∨
    (∃ s r, entryGet e f = .vStr s ∧ s ≠ "" ∧ fmLookup m s = some r ∧
      e2 = entrySet e f (.vStr r)) := by
  unfold applyFieldCorrection at h
  cases hv : entryGet e f with
  | vNone =>
    rw [hv] at h
    simp [PyVal.truthy] at h
    exact Or.inl ⟨trivial, h.symm⟩
  | vBool b =>
    rw [hv] at h
    cases b <;> simp [PyVal.truthy] at h <;> exact Or.inl ⟨trivial, h.symm⟩
  | vInt n =>
    rw [hv] at h
    by_cases hn : n = 0 <;> simp [PyVal.truthy, hn] at h <;>
      exact Or.inl ⟨trivial, h.symm⟩
  | vStr s =>
    rw [hv] at h
    by_cases hs : s = ""
    · simp [PyVal.truthy, hs] at h
      exact Or.inl ⟨by simp [uncorrectable, hs], h.symm⟩
    · simp only [PyVal.truthy] at h
      rw [if_pos (by simpa using hs)] at h
      cases hl : fmLookup m s with
      | none =>
        rw [hl] at h
        cases h
        exact Or.inl ⟨by simp [uncorrectable, hl], rfl⟩
      | some r =>
        rw [hl] at h
        cases h
        exact Or.inr ⟨s, r, rfl, hs, hl, rfl⟩
  | vList l =>
    rw [hv] at h
    by_cases hl : l.isEmpty
    · simp [PyVal.truthy, hl] at h
      exact Or.inl ⟨by simp [uncorrectable, List.isEmpty_iff.1 hl], h.symm⟩
    · simp [PyVal.truthy, hl] at h
  | vDict kvs =>
    rw [hv] at h
    by_cases hl : kvs.isEmpty
    · simp [PyVal.truthy, hl] at h
      exact Or.inl ⟨by simp [uncorrectable, List.isEmpty_iff.1 hl], h.symm⟩
    · simp [PyVal.truthy, hl] at h

/-- Unfolding one step of the per-entry correction loop. -/
theorem applyEntry_cons (e : Entry) (fc : String × FieldMap) (cs : Corrections) :
    applyEntryCorrections e (fc :: cs) =
      (applyFieldCorrection e fc.1 fc.2 >>= fun e1 => applyEntryCorrections e1 cs) := rfl

/-- A pass over correction fields that never names a key leaves that key's
value, membership, and uniform values untouched. -/
theorem applyEntry_untouched (k : String) :
    ∀ (cs : Corrections) (e r : Entry), (∀ fc ∈ cs, fc.1 ≠ k) →
      applyEntryCorrections e cs = .ok r →
      entryGet r k = entryGet e k ∧ keyMem r k = keyMem e k ∧
        (∀ v, allVals e k v → allVals r k v) := by
  intro cs
  induction cs with
  | nil =>
    intro e r _ h
    cases h
    exact ⟨rfl, rfl, fun v hv => hv⟩
  | cons fc rest ih =>
    intro e r hne h
    rw [applyEntry_cons] at h
    cases ha : applyFieldCorrection e fc.1 fc.2 with
    | error u => rw [ha] at h; cases h
    | ok e1 =>
      rw [ha, except_bind_ok] at h
      have hk : fc.1 ≠ k := hne fc (List.mem_cons_self _ _)
      have hrest := ih e1 r (fun q hq => hne q (List.mem_cons_of_mem _ hq)) h
      rcases applyField_cases e fc.1 fc.2 e1 ha with ⟨_, rfl⟩ | ⟨s, r0, _, _, _, rfl⟩
      · exact hrest
      · refine ⟨?_, ?_, ?_⟩
        · rw [hrest.1, entryGet_entrySet_ne e fc.1 k _ (fun hh => hk hh.symm)]
        · rw [hrest.2.1, keyMem_entrySet]
        · intro v hv
          exact hrest.2.2 v (allVals_entrySet_ne e fc.1 k v _ hk hv)

end PaySlips

namespace PaySlips

/-- Re-applying the whole per-entry pass of a chain-free table with distinct
field keys is a no-op on its own output. -/
theorem applyEntry_idem :
    ∀ (cs : Corrections), chainFree cs → (cs.map Prod.fst).Nodup →
      ∀ e r, applyEntryCorrections e cs = .ok r →
        applyEntryCorrections r cs = .ok r := by
  intro cs
  induction cs with
  | nil =>
    intro _ _ e r h
    cases h
    rfl
  | cons fc rest ih =>
    intro hcf hnd e r h
    rw [applyEntry_cons] at h ⊢
    cases ha : applyFieldCorrection e fc.1 fc.2 with
    | error u => rw [ha] at h; exact Except.noConfusion h
    | ok e1 =>
      rw [ha, except_bind_ok] at h
      have hndc : (fc.1 :: rest.map Prod.fst).Nodup := hnd
      have hnd2 := List.nodup_cons.1 hndc
      have hnotin : ∀ q ∈ rest, q.1 ≠ fc.1 := by
        intro q hq heq
        exact hnd2.1 (heq ▸ List.mem_map_of_mem Prod.fst hq)
      have hcf_rest : chainFree rest :=
        fun q hq => hcf q (List.mem_cons_of_mem _ hq)
      have hun := applyEntry_untouched fc.1 rest e1 r hnotin h
      have hstep : applyFieldCorrection r fc.1 fc.2 = .ok r := by
        rcases applyField_cases e fc.1 fc.2 e1 ha with ⟨hu, he1⟩ |
          ⟨s, r0, hvs, hs, hl, he1⟩
        · subst he1
          apply applyField_of_uncorrectable
          rw [hun.1]
          exact hu
        · subst he1
          have hkm : keyMem e fc.1 = true := keyMem_of_entryGet_vStr e fc.1 s hvs
          have hget1 : entryGet (entrySet e fc.1 (.vStr r0)) fc.1 = .vStr r0 :=
            entryGet_entrySet_self e fc.1 _ hkm
          have hgetr : entryGet r fc.1 = .vStr r0 := by rw [hun.1, hget1]
          have hall : allVals r fc.1 (.vStr r0) :=
            hun.2.2 _ (allVals_entrySet_self e fc.1 _)
          obtain ⟨p, hpmem, hp1, hp2⟩ := fmLookup_mem fc.2 s r0 hl
          by_cases hr0 : r0 = ""
          · apply applyField_of_uncorrectable
            rw [hgetr]
            exact Or.inl hr0
          · have hch := hcf fc (List.mem_cons_self _ _) p hpmem
              (by rw [hp2]; exact hr0)
            rw [hp2] at hch
            rcases hch with hnone | hself
            · apply applyField_of_uncorrectable
              rw [hgetr]
              exact Or.inr hnone
            · rw [applyField_set r fc.1 fc.2 r0 r0 hgetr hr0 hself]
              rw [entrySet_of_allVals r fc.1 _ hall]
      rw [hstep, except_bind_ok]
      exact ih hcf_rest hnd2.2 e1 r h

/-- Frame property of the per-entry pass: a key whose current value no
mapping of the table can correct keeps its value. -/
theorem applyEntry_frame (k : String) :
    ∀ (cs : Corrections) (e r : Entry),
      applyEntryCorrections e cs = .ok r →
      (∀ m, (k, m) ∈ cs → uncorrectable (entryGet e k) m) →
      entryGet r k = entryGet e k := by
  intro cs
  induction cs with
  | nil =>
    intro e r h _
    cases h
    rfl
  | cons fc rest ih =>
    intro e r h hun
    rw [applyEntry_cons] at h
    cases ha : applyFieldCorrection e fc.1 fc.2 with
    | error u => rw [ha] at h; exact Except.noConfusion h
    | ok e1 =>
      rw [ha, except_bind_ok] at h
      by_cases hk : fc.1 = k
      · have hfc : (k, fc.2) ∈ fc :: rest := by
          have heta : (k, fc.2) = fc := by rw [← hk]
          rw [heta]
          exact List.mem_cons_self _ _
        have huc := hun fc.2 hfc
        have he1eq : applyFieldCorrection e fc.1 fc.2 = .ok e := by
          apply applyField_of_uncorrectable
          rw [hk]
          exact huc
        rw [he1eq] at ha
        have he1 : e = e1 := by
          injection ha
        subst he1
        exact ih e r h (fun m hm => hun m (List.mem_cons_of_mem _ hm))
      · have hpres : entryGet e1 k = entryGet e k := by
          rcases applyField_cases e fc.1 fc.2 e1 ha with ⟨_, he1⟩ |
            ⟨s, r0, _, _, _, he1⟩
          · subst he1; rfl
          · subst he1
            exact entryGet_entrySet_ne e fc.1 k _ (fun hh => hk hh.symm)
        have hr := ih e1 r h
          (fun m hm => by rw [hpres]; exact hun m (List.mem_cons_of_mem _ hm))
        rw [hr, hpres]

/-- A successful mapM gives a pointwise successful correspondence. -/
theorem mapM_ok_length_get {α β : Type} (f : α → Except Unit β) :
    ∀ (l : List α) (r : List β), l.mapM f = .ok r →
      r.length = l.length ∧
      ∀ i a, l.get? i = some a → ∃ b, r.get? i = some b ∧ f a = .ok b := by
  intro l
  induction l with
  | nil =>
    intro r h
    rw [List.mapM_nil] at h
    have h2 : Except.ok ([] : List β) = .ok r := h
    cases h2
    exact ⟨rfl, fun i a ha => by simp at ha⟩
  | cons a rest ih =>
    intro r h
    rw [List.mapM_cons] at h
    cases hfa : f a with
    | error u => rw [hfa] at h; exact Except.noConfusion h
    | ok b =>
      rw [hfa, except_bind_ok] at h
      cases hrest : rest.mapM f with
      | error u => rw [hrest] at h; exact Except.noConfusion h
      | ok bs =>
        rw [hrest, except_bind_ok] at h
        have h2 : Except.ok (b :: bs) = .ok r := h
        cases h2
        obtain ⟨ihl, ihg⟩ := ih bs hrest
        refine ⟨by simp [ihl], ?_⟩
        intro i x hx
        cases i with
        | zero =>
          have hax : a = x := by simpa using hx
          subst hax
          exact ⟨b, rfl, hfa⟩
        | succ n =>
          exact ihg n x (by simpa using hx)

/-- mapM of a pointwise-fixed function returns its input. -/
theorem mapM_ok_of_fixed {α : Type} (f : α → Except Unit α) :
    ∀ l : List α, (∀ a ∈ l, f a = .ok a) → l.mapM f = .ok l := by
  intro l
  induction l with
  | nil => intro _; rfl
  | cons a rest ih =>
    intro h
    rw [List.mapM_cons, h a (List.mem_cons_self _ _), except_bind_ok,
      ih (fun x hx => h x (List.mem_cons_of_mem _ hx)), except_bind_ok]
    rfl

/-! ### C3: idempotence of the correction layer -/

/-- C3 counterexample: with the chaining table name: a→b, b→c and an entry
whose name is "a", one application yields "b" but a second application
re-corrects to "c" — apply_corrections is NOT idempotent as claimed. -/
theorem C3_counterexample :
    (do let r ← apply_corrections chainEntries chainTable
        apply_corrections r chainTable) ≠
      apply_corrections chainEntries chainTable := by
  intro h
  have h1 : apply_corrections chainEntries chainTable =
      .ok [[("name", PyVal.vStr "b")]] := rfl
  have h2 : (do let r ← apply_corrections chainEntries chainTable
                apply_corrections r chainTable) =
      .ok [[("name", PyVal.vStr "c")]] := rfl
  rw [h2, h1] at h
  simp at h

/-- C3 (amended): for every entry list and every correction table that is
chain-free (no nonempty right value is itself a wrong-value key of its
field's mapping, unless mapped to itself) and has distinct field keys (as a
Python dict does), a second application of apply_corrections to a successful
result is a no-op. -/
theorem C3_corrections_idempotence (cs : Corrections) (hcf : chainFree cs)
    (hnd : (cs.map Prod.fst).Nodup) (extracted r : List Entry)
    (h : apply_corrections extracted cs = .ok r) :
    apply_corrections r cs = .ok r := by
  unfold apply_corrections at h ⊢
  by_cases hemp : cs.isEmpty
  · rw [if_pos hemp] at h ⊢
  · rw [if_neg hemp] at h ⊢
    obtain ⟨hlen, hget⟩ := mapM_ok_length_get _ extracted r h
    apply mapM_ok_of_fixed
    intro b hb
    obtain ⟨i, hi⟩ := List.get?_of_mem hb
    have hlt : i < extracted.length := by
      have := (List.get?_eq_some.1 hi).1
      omega
    obtain ⟨a, ha⟩ : ∃ a, extracted.get? i = some a :=
      ⟨extracted.get ⟨i, hlt⟩, List.get?_eq_get hlt⟩
    obtain ⟨b2, hb2, hfb⟩ := hget i a ha
    rw [hi] at hb2
    have hbb : b = b2 := Option.some.inj hb2
    subst hbb
    exact applyEntry_idem cs hcf hnd a b hfb

/-- C3 witness: a chain-free single-field table is idempotent on a concrete
entry list. -/
theorem C3_corrections_idempotence_witness :
    (chainFree okTable ∧ (okTable.map Prod.fst).Nodup ∧
      apply_corrections okEntries okTable = .ok okEntriesAfter) ∧
    apply_corrections okEntriesAfter okTable = .ok okEntriesAfter :=
  ⟨⟨by decide, by decide, rfl⟩,
   C3_corrections_idempotence okTable (by decide) (by decide) okEntries
     okEntriesAfter rfl⟩

/-! ### C10: frame conditions of the correction layer -/

/-- C10 counterexample: a corrections table keyed "raw_text" DOES modify an
entry's raw_text (the claim's unconditional raw_text clause fails; it holds
only when "raw_text" is not a field key of the table). -/
theorem C10_counterexample :
    apply_corrections [[("raw_text", PyVal.vStr "x")]]
        [("raw_text", [("x", "y")])] =
      .ok [[("raw_text", PyVal.vStr "y")]] ∧
    PyVal.vStr "y" ≠ PyVal.vStr "x" := by
  refine ⟨rfl, ?_⟩
  intro h
  simp at h

/-- C10 (amended): apply_corrections never modifies page_number (an integer
value is never corrected); it never modifies raw_text provided "raw_text" is
not a field key of the table; it never modifies a field that is not a key of
the table, nor one whose current value is None, an integer, the empty
string, or a string that is not an exact key of that field's mapping —
every such value is left unchanged. -/
theorem C10_frame_conditions (extracted : List Entry) (cs : Corrections)
    (rs : List Entry) (h : apply_corrections extracted cs = .ok rs)
    (i : Nat) (e r : Entry) (he : extracted.get? i = some e)
    (hr : rs.get? i = some r) :
    (∀ n, entryGet e "page_number" = .vInt n →
      entryGet r "page_number" = .vInt n) ∧
    ("raw_text" ∉ cs.map Prod.fst →
      entryGet r "raw_text" = entryGet e "raw_text") ∧
    (∀ k, k ∉ cs.map Prod.fst → entryGet r k = entryGet e k) ∧
    (∀ k, entryGet e k = .vNone → entryGet r k = .vNone) ∧
    (∀ k n, entryGet e k = .vInt n → entryGet r k = .vInt n) ∧
    (∀ k, entryGet e k = .vStr "" → entryGet r k = .vStr "") ∧
    (∀ k s, entryGet e k = .vStr s →
      (∀ m, (k, m) ∈ cs → fmLookup m s = none) →
      entryGet r k = .vStr s) := by
  have hper : applyEntryCorrections e cs = .ok r ∨ r = e := by
    unfold apply_corrections at h
    by_cases hemp : cs.isEmpty
    · rw [if_pos hemp] at h
      cases h
      right
      rw [he] at hr
      exact (Option.some.inj hr).symm
    · rw [if_neg hemp] at h
      obtain ⟨_, hget⟩ := mapM_ok_length_get _ extracted rs h
      obtain ⟨b, hb, hfb⟩ := hget i e he
      rw [hb] at hr
      left
      rw [← Option.some.inj hr]
      exact hfb
  rcases hper with hper | hper
  · refine ⟨?_, ?_, ?_, ?_, ?_, ?_, ?_⟩
    · intro n hn
      rw [applyEntry_frame "page_number" cs e r hper
        (fun m _ => by rw [hn]; trivial), hn]
    · intro hmem
      exact applyEntry_frame "raw_text" cs e r hper
        (fun m hm => absurd (List.mem_map_of_mem Prod.fst hm) hmem)
    · intro k hmem
      exact applyEntry_frame k cs e r hper
        (fun m hm => absurd (List.mem_map_of_mem Prod.fst hm) hmem)
    · intro k hk
      rw [applyEntry_frame k cs e r hper (fun m _ => by rw [hk]; trivial), hk]
    · intro k n hk
      rw [applyEntry_frame k cs e r hper (fun m _ => by rw [hk]; trivial), hk]
    · intro k hk
      rw [applyEntry_frame k cs e r hper
        (fun m _ => by rw [hk]; exact Or.inl rfl), hk]
    · intro k s hk hnone
      rw [applyEntry_frame k cs e r hper
        (fun m hm => by rw [hk]; exact Or.inr (hnone m hm)), hk]
  · subst hper
    exact ⟨fun n hn => hn, fun _ => rfl, fun k _ => rfl, fun k hk => hk,
      fun k n hk => hk, fun k hk => hk, fun k s hk _ => hk⟩

/-- C10 witness: correcting the name leaves page_number, email and raw_text
of the concrete entry untouched. -/
theorem C10_frame_conditions_witness :
    (apply_corrections okEntries okTable = .ok okEntriesAfter) ∧
    entryGet (okEntriesAfter.headD []) "page_number" = PyVal.vInt 0 ∧
    entryGet (okEntriesAfter.headD []) "email" = PyVal.vStr "x@y.com" ∧
    entryGet (okEntriesAfter.headD []) "raw_text" = PyVal.vStr "טקסט" := by
  have h := C10_frame_conditions okEntries okTable okEntriesAfter rfl 0
    (okEntries.headD []) (okEntriesAfter.headD []) rfl rfl
  refine ⟨rfl, h.1 0 rfl, ?_, ?_⟩
  · have he := h.2.2.1 "email" (by decide)
    rw [he]
    rfl
  · have ht := h.2.1 (by decide)
    rw [ht]
    rfl

end PaySlips

namespace PaySlips

/-! ### C5: per-page failure isolation of the vision extractor -/

/-- Indexing an enumerated list. -/
theorem enumFrom_get? {α : Type} :
    ∀ (l : List α) (n i : Nat),
      (List.enumFrom n l).get? i = (l.get? i).map (fun a => (n + i, a)) := by
  intro l
  induction l with
  | nil => intro n i; simp
  | cons a rest ih =>
    intro n i
    cases i with
    | zero => simp [List.enumFrom]
    | succ m =>
      show (List.enumFrom (n + 1) rest).get? m = _
      rw [ih (n + 1) m]
      have harith : n + 1 + m = n + (m + 1) := by omega
      rw [harith]
      rfl

/-- Indexing the per-page extraction results. -/
theorem visionResults_get? (l : List VisionPage) (i : Nat) :
    (l.enum.map (fun ip => processVisionPage (ip.1 : Int) ip.2)).get? i =
      (l.get? i).map (fun p => processVisionPage (i : Int) p) := by
  rw [List.get?_map]
  show ((List.enumFrom 0 l).get? i).map _ = _
  rw [enumFrom_get?]
  cases l.get? i with
  | none => rfl
  | some p => simp

/-- C5: with no corrections table (as at every call site), vision extraction
returns one result per page in page order; a page whose model call fails —
transport error, fence-wrapped one-line response, malformed JSON, or a
response whose shape breaks field building — yields the all-null record for
that page; the all-null record has all five fields null; and each page's
result depends only on that page, so one page's failure never affects the
others. -/
theorem C5_vision_isolation (pages : List VisionPage) :
    ∃ res, extract_with_vision pages [] = .ok res ∧
      res.length = pages.length ∧
      (∀ i p, pages.get? i = some p →
        res.get? i = some (processVisionPage (i : Int) p)) ∧
      (∀ i p, pages.get? i = some p → p.call = .error () →
        res.get? i = some (nullEntry (i : Int) p.raw_text)) ∧
      (∀ i p t, pages.get? i = some p → p.call = .ok t →
        unwrapFences (pyStrip t) = .error () →
        res.get? i = some (nullEntry (i : Int) p.raw_text)) ∧
      (∀ i p t t2, pages.get? i = some p → p.call = .ok t →
        unwrapFences (pyStrip t) = .ok t2 → jsonLoads t2 = .error () →
        res.get? i = some (nullEntry (i : Int) p.raw_text)) ∧
      (∀ i p t t2 d, pages.get? i = some p → p.call = .ok t →
        unwrapFences (pyStrip t) = .ok t2 → jsonLoads t2 = .ok d →
        buildEntry (i : Int) p.raw_text d = .error () →
        res.get? i = some (nullEntry (i : Int) p.raw_text)) ∧
      (∀ (pageNum : Int) (raw : String), fiveNull (nullEntry pageNum raw)) ∧
      (∀ (pages2 : List VisionPage) (res2 : List Entry) (i : Nat),
        pages.get? i = pages2.get? i →
        extract_with_vision pages2 [] = .ok res2 →
        res.get? i = res2.get? i) := by
  refine ⟨pages.enum.map (fun ip => processVisionPage (ip.1 : Int) ip.2),
    ?_, ?_, ?_, ?_, ?_, ?_, ?_, ?_, ?_⟩
  · rfl
  · simp
  · intro i p hp
    rw [visionResults_get?, hp]
    rfl
  · intro i p hp hcall
    rw [visionResults_get?, hp]
    have hnull : visionPageAttempt (i : Int) p = .error () := by
      unfold visionPageAttempt
      rw [hcall]
      rfl
    simp [processVisionPage, hnull]
  · intro i p t hp hcall hf
    rw [visionResults_get?, hp]
    have hnull : visionPageAttempt (i : Int) p = .error () := by
      unfold visionPageAttempt
      rw [hcall, except_bind_ok, hf]
      rfl
    simp [processVisionPage, hnull]
  · intro i p t t2 hp hcall hf hj
    rw [visionResults_get?, hp]
    have hnull : visionPageAttempt (i : Int) p = .error () := by
      unfold visionPageAttempt
      rw [hcall, except_bind_ok, hf, except_bind_ok, hj]
      rfl
    simp [processVisionPage, hnull]
  · intro i p t t2 d hp hcall hf hj hb
    rw [visionResults_get?, hp]
    have hnull : visionPageAttempt (i : Int) p = .error () := by
      unfold visionPageAttempt
      rw [hcall, except_bind_ok, hf, except_bind_ok, hj, except_bind_ok]
      exact hb
    simp [processVisionPage, hnull]
  · intro pageNum raw
    exact ⟨rfl, rfl, rfl, rfl, rfl⟩
  · intro pages2 res2 i heq h2
    have h2b : Except.ok
        (pages2.enum.map (fun ip => processVisionPage (ip.1 : Int) ip.2)) =
        .ok res2 := h2
    cases h2b
    rw [visionResults_get?, visionResults_get?, heq]

set_option maxRecDepth 10000 in
/-- C5 witness: of two pages, the second suffering a transport error, the
first still extracts and the second degrades to the all-null record. -/
theorem C5_vision_isolation_witness :
    (pagesW.get? 1 = some { raw_text := "raw1", call := .error () }) ∧
    (extract_with_vision pagesW []).map List.length = .ok 2 ∧
    (extract_with_vision pagesW []).map (fun res => res.get? 1) =
      .ok (some (nullEntry 1 "raw1")) ∧
    entryGet (nullEntry 1 "raw1") "name" = PyVal.vNone := by
  obtain ⟨res, h1, h2, h3, h4, _⟩ := C5_vision_isolation pagesW
  refine ⟨rfl, ?_, ?_, rfl⟩
  · rw [h1]
    show Except.ok res.length = Except.ok 2
    rw [h2]
    rfl
  · rw [h1]
    show Except.ok (res.get? 1) = Except.ok (some (nullEntry 1 "raw1"))
    rw [h4 1 { raw_text := "raw1", call := .error () } rfl rfl]
    rfl

end PaySlips
